import Mathlib

/-!
# Order book manager (`backend/orderbook_manager/main.go`)

A shallow embedding of the order book reconstruction engine: the book store,
the snapshot install, the diff reconciler `applyUpdate` and the query handler
`getOrderBookHandler`, followed by the properties proved about them.

Go values are embedded as follows.

* `string` is `String` (texts that are valid UTF-8).
* `int64` is `Int64`, an integer in `[-2^63, 2^63)`; `+` wraps.
* `float64` is `Float64`, the 64 bits of an IEEE 754 binary64 value.
* `map[string]T` is an association list without duplicate keys (`AList`).  Go does
  not specify the order in which `range` visits a map; the order of the
  association list stands for that order, and statements about `range` are made
  for every order.
* The locks are not represented: every operation runs to completion on the
  state it is given.
-/

namespace OrderbookManager

/-! ## `int64` -/

/-- Go `int64`: an integer in `[-2^63, 2^63)`. -/
structure Int64 where
  val : Int
  lo : -(2 ^ 63 : Int) ≤ val
  hi : val < (2 ^ 63 : Int)
deriving DecidableEq

namespace Int64

/-- Two's complement wrap of an integer into the `int64` range. -/
def wrap (z : Int) : Int64 :=
  ⟨(z + 2 ^ 63) % 2 ^ 64 - 2 ^ 63,
   by have := Int.emod_nonneg (z + 2 ^ 63) (show (2 ^ 64 : Int) ≠ 0 by decide); omega,
   by have := Int.emod_lt_of_pos (z + 2 ^ 63) (show (0 : Int) < 2 ^ 64 by decide); omega⟩

/-- Go `x + y` on `int64` (wraps on overflow). -/
def add (x y : Int64) : Int64 := wrap (x.val + y.val)

/-- An `int64` constant; the literal is wrapped into the range. -/
def ofInt (z : Int) : Int64 := wrap z

/-- Go `x <= y` on `int64`. -/
def le (x y : Int64) : Bool := decide (x.val ≤ y.val)

/-- Go `x > y` on `int64`. -/
def gt (x y : Int64) : Bool := decide (y.val < x.val)

end Int64

/-! ## `float64` -/

/-- Go `float64`: the bit pattern of an IEEE 754 binary64 value
(`math.Float64bits`): bit 63 is the sign, bits 62..52 the biased exponent,
bits 51..0 the fraction. -/
structure Float64 where
  bits : Nat
  isLt : bits < 2 ^ 64
deriving DecidableEq

namespace Float64

/-- Go `math.Float64frombits` (the argument is reduced to 64 bits). -/
def ofBits (b : Nat) : Float64 := ⟨b % 2 ^ 64, Nat.mod_lt _ (by decide)⟩

/-- The sign bit. -/
def sign (f : Float64) : Bool := decide (2 ^ 63 ≤ f.bits)

/-- Exponent and fraction bits: the magnitude of the value, as an integer whose
order is the order of the magnitudes. -/
def mag (f : Float64) : Nat := f.bits % 2 ^ 63

/-- The magnitude bits of infinity: exponent 2047, fraction 0. -/
def infMag : Nat := 2047 * 2 ^ 52

/-- Go `math.IsNaN`: exponent 2047 and a non-zero fraction. -/
def isNaN (f : Float64) : Bool := decide (infMag < f.mag)

/-- Go `math.IsInf(f, 0)`. -/
def isInf (f : Float64) : Bool := decide (f.mag = infMag)

/-- An integer that orders the values that are not NaN as IEEE 754 does
(`-0` and `+0` both have key `0`). -/
def key (f : Float64) : Int := if f.sign then -(f.mag : Int) else (f.mag : Int)

/-- Go `x < y` on `float64`: false when either side is NaN. -/
def lt (x y : Float64) : Bool := !x.isNaN && !y.isNaN && decide (x.key < y.key)

/-- Go `x > y` on `float64`. -/
def gt (x y : Float64) : Bool := lt y x

/-- Go `x == y` on `float64`: false when either side is NaN, true on `-0 == +0`. -/
def eq (x y : Float64) : Bool := !x.isNaN && !y.isNaN && decide (x.key = y.key)

/-- Go `x >= y` on `float64`. -/
def ge (x y : Float64) : Bool := !x.isNaN && !y.isNaN && decide (y.key ≤ x.key)

/-- Go `x <= y` on `float64`. -/
def le (x y : Float64) : Bool := ge y x

/-- The value `+0`. -/
def zero : Float64 := ofBits 0

/-- Builds a value from its sign and magnitude bits. -/
def ofSignMag (neg : Bool) (m : Nat) : Float64 := ofBits ((if neg then 2 ^ 63 else 0) + m % 2 ^ 63)

/-- The value `math.Inf(sign)`. -/
def inf (neg : Bool) : Float64 := ofSignMag neg infMag

/-- The value `math.NaN()`. -/
def nan : Float64 := ofBits 0x7FF8000000000001

end Float64

/-! ## `strconv.ParseFloat`

`strconv.ParseFloat(s, 64)` belongs to the Go standard library.  The functions
below follow `strconv/atof.go`: `special`, `readFloat`, `underscoreOK` accept the
same texts, and the value is the nearest binary64 value, ties to even, as the
library documents it.  The library keeps 19 decimal digits in a first pass and
re-reads the text when they do not decide the rounding; here the digits are
accumulated exactly. -/

/-- The `Err` field of the `*NumError` that `strconv.ParseFloat` returns. -/
inductive NumError where
  | ErrSyntax
  | ErrRange
deriving DecidableEq

/-- Go `strconv.commonPrefixLenIgnoreCase`; the second text is in lower case. -/
def commonPrefixLenIgnoreCase : List Char → List Char → Nat
  | c :: s, p :: ps => if c.toLower = p then 1 + commonPrefixLenIgnoreCase s ps else 0
  | _, _ => 0

/-- Go `strconv.special`: the value and the number of characters consumed when the
text starts with an optionally signed `inf`, `infinity`, or with `nan`. -/
def special (s : List Char) : Option (Float64 × Nat) :=
  match s with
  | [] => none
  | c :: rest =>
    if c = '+' ∨ c = '-' then
      let n := commonPrefixLenIgnoreCase rest "infinity".toList
      let n := if 3 < n ∧ n < 8 then 3 else n
      if n = 3 ∨ n = 8 then some (Float64.inf (decide (c = '-')), 1 + n) else none
    else if c = 'i' ∨ c = 'I' then
      let n := commonPrefixLenIgnoreCase s "infinity".toList
      let n := if 3 < n ∧ n < 8 then 3 else n
      if n = 3 ∨ n = 8 then some (Float64.inf false, n) else none
    else if c = 'n' ∨ c = 'N' then
      if commonPrefixLenIgnoreCase s "nan".toList = 3 then some (Float64.nan, 3) else none
    else none

/-- The `saw` variable of `strconv.underscoreOK`. -/
inductive Saw where
  | start
  | digit
  | underscore
  | other
deriving DecidableEq

/-- The loop `for ; i < len(s); i++` of `strconv.underscoreOK`. -/
def underscoreLoop (hex : Bool) : List Char → Saw → Bool
  | [], saw => decide (saw ≠ Saw.underscore)
  | c :: cs, saw =>
    if ('0' ≤ c ∧ c ≤ '9') ∨ (hex = true ∧ 'a' ≤ c.toLower ∧ c.toLower ≤ 'f') then
      underscoreLoop hex cs Saw.digit
    else if c = '_' then
      if saw ≠ Saw.digit then false else underscoreLoop hex cs Saw.underscore
    else if saw = Saw.underscore then false
    else underscoreLoop hex cs Saw.other

/-- Go `strconv.underscoreOK`: underscores only separate digits (a base prefix
counts as a digit). -/
def underscoreOK (s : List Char) : Bool :=
  let s := match s with
    | '-' :: r => r
    | '+' :: r => r
    | _ => s
  match s with
  | '0' :: x :: r =>
    if x.toLower = 'b' ∨ x.toLower = 'o' ∨ x.toLower = 'x' then
      underscoreLoop (decide (x.toLower = 'x')) r Saw.digit
    else underscoreLoop false s Saw.start
  | _ => underscoreLoop false s Saw.start

/-- The variables of the mantissa loop of `strconv.readFloat`. -/
structure Digits where
  mantissa : Nat
  nd : Nat
  dp : Int
  sawdot : Bool
  sawdigits : Bool
  underscores : Bool

/-- The mantissa loop of `strconv.readFloat`; returns the variables and the text
left at the `break`. -/
def readDigits (hex : Bool) : List Char → Digits → Digits × List Char
  | [], d => (d, [])
  | c :: cs, d =>
    if c = '_' then readDigits hex cs { d with underscores := true }
    else if c = '.' then
      if d.sawdot then (d, c :: cs)
      else readDigits hex cs { d with sawdot := true, dp := d.nd }
    else if '0' ≤ c ∧ c ≤ '9' then
      if c = '0' ∧ d.nd = 0 then
        readDigits hex cs { d with sawdigits := true, dp := d.dp - 1 }
      else
        readDigits hex cs { d with
          sawdigits := true, nd := d.nd + 1,
          mantissa := d.mantissa * (if hex then 16 else 10) + (c.toNat - '0'.toNat) }
    else if hex = true ∧ (('a' ≤ c ∧ c ≤ 'f') ∨ ('A' ≤ c ∧ c ≤ 'F')) then
      readDigits hex cs { d with
        sawdigits := true, nd := d.nd + 1,
        mantissa := d.mantissa * 16 + (c.toLower.toNat - 'a'.toNat + 10) }
    else (d, c :: cs)

/-- The exponent loop of `strconv.readFloat`: the exponent stops growing at
`10000`. -/
def readExpDigits : List Char → Nat → Bool → (Nat × Bool) × List Char
  | [], e, us => ((e, us), [])
  | c :: cs, e, us =>
    if c = '_' then readExpDigits cs e true
    else if '0' ≤ c ∧ c ≤ '9' then
      readExpDigits cs (if e < 10000 then e * 10 + (c.toNat - '0'.toNat) else e) us
    else ((e, us), c :: cs)

/-- The result of `strconv.readFloat` when `ok`: the value read is
`mantissa * base ^ exp` with base `2` when `hex` and `10` otherwise, and `rest`
is the text after the number. -/
structure ReadFloat where
  mantissa : Nat
  exp : Int
  neg : Bool
  hex : Bool
  rest : List Char

/-- The end of `strconv.readFloat`, after the optional exponent. -/
def readFloatEnd (s : List Char) (neg hex : Bool) (mantissa ndMant : Nat) (dp : Int)
    (underscores : Bool) (rest : List Char) : Option ReadFloat :=
  let exp : Int := if mantissa ≠ 0 then dp - ndMant else 0
  if underscores = true ∧ underscoreOK (s.take (s.length - rest.length)) = false then none
  else some ⟨mantissa, exp, neg, hex, rest⟩

/-- Go `strconv.readFloat`: `none` when the text does not start with a number. -/
def readFloat (s : List Char) : Option ReadFloat :=
  if s = [] then none else
  let (neg, s1) := match s with
    | '+' :: r => (false, r)
    | '-' :: r => (true, r)
    | _ => (false, s)
  let (hex, s2) := match s1 with
    | '0' :: x :: c :: r => if x = 'x' ∨ x = 'X' then (true, c :: r) else (false, s1)
    | _ => (false, s1)
  let (d, s3) := readDigits hex s2 ⟨0, 0, 0, false, false, false⟩
  if d.sawdigits = false then none else
  let dp : Int := if d.sawdot then d.dp else d.nd
  let dp : Int := if hex then dp * 4 else dp
  let ndMant : Nat := if hex then d.nd * 4 else d.nd
  match s3 with
  | [] => if hex then none else readFloatEnd s neg hex d.mantissa ndMant dp d.underscores []
  | c :: s4 =>
    if (hex = false ∧ (c = 'e' ∨ c = 'E')) ∨ (hex = true ∧ (c = 'p' ∨ c = 'P')) then
      if s4 = [] then none else
      let (esign, s5) := match s4 with
        | '+' :: r => ((1 : Int), r)
        | '-' :: r => ((-1 : Int), r)
        | _ => ((1 : Int), s4)
      match s5 with
      | [] => none
      | c5 :: _ =>
        if ¬ ('0' ≤ c5 ∧ c5 ≤ '9') then none else
        let r := readExpDigits s5 0 d.underscores
        readFloatEnd s neg hex d.mantissa ndMant (dp + (r.1.1 : Int) * esign) r.1.2 r.2
    else if hex then none
    else readFloatEnd s neg hex d.mantissa ndMant dp d.underscores s3

/-- The quotient `n / d` rounded to the nearest integer, ties to even. -/
def roundHalfEven (n d : Nat) : Nat :=
  let q := n / d
  let r := n % d
  if 2 * r < d then q else if d < 2 * r then q + 1 else if q % 2 = 0 then q else q + 1

/-- Numerator and denominator of `num / den * 2 ^ s`. -/
def scale2 (num den : Nat) (s : Int) : Nat × Nat :=
  if 0 ≤ s then (num * 2 ^ s.toNat, den) else (num, den * 2 ^ (-s).toNat)

/-- Halves `n` until it is below `2`, at most `fuel` times, and adds the number
of halvings to `acc`. -/
def log2Aux : Nat → Nat → Nat → Nat
  | 0, _, acc => acc
  | fuel + 1, n, acc => if n < 2 then acc else log2Aux fuel (n / 2) (acc + 1)

/-- The position of the highest set bit of `n` (`0` for `n = 0`). -/
def floorLog2 (n : Nat) : Nat := log2Aux n n 0

/-- The magnitude bits of the binary64 value nearest to `num / den` (both
positive), ties to even; the result is at least `Float64.infMag` when the
nearest value is out of range. -/
def roundMag (num den : Nat) : Nat :=
  let e : Int := (floorLog2 num : Int) - (floorLog2 den : Int)
  let p := scale2 num den (-e)
  let e2 : Int := if p.2 ≤ p.1 then e else e - 1
  if e2 < -1022 then
    let q := scale2 num den 1074
    roundHalfEven q.1 q.2
  else
    let q := scale2 num den (52 - e2)
    (e2 + 1022).toNat * 2 ^ 52 + roundHalfEven q.1 q.2

/-- Go `strconv.ParseFloat(s, 64)`: the value and the error.  A text that is not a
number gives `0` and `ErrSyntax`; a number out of range gives an infinity and
`ErrRange`. -/
def ParseFloat (s : String) : Float64 × Option NumError :=
  let cs := s.toList
  match special cs with
  | some (f, n) => if n = cs.length then (f, none) else (Float64.zero, some NumError.ErrSyntax)
  | none =>
    match readFloat cs with
    | none => (Float64.zero, some NumError.ErrSyntax)
    | some r =>
      if r.rest ≠ [] then (Float64.zero, some NumError.ErrSyntax)
      else if r.mantissa = 0 then (Float64.ofSignMag r.neg 0, none)
      else
        let base : Nat := if r.hex then 2 else 10
        let m := if 0 ≤ r.exp then roundMag (r.mantissa * base ^ r.exp.toNat) 1
                 else roundMag r.mantissa (base ^ (-r.exp).toNat)
        if Float64.infMag ≤ m then (Float64.inf r.neg, some NumError.ErrRange)
        else (Float64.ofSignMag r.neg m, none)

/-! ## Data structures -/

/-- Type `OrderLevel [2]string`: index `0` is the price text, index `1` the
quantity text. -/
abbrev OrderLevel := String × String

/-- Type `OrderBookSnapshot struct`. -/
structure OrderBookSnapshot where
  LastUpdateID : Int64
  Bids : List OrderLevel
  Asks : List OrderLevel

/-- Type `DepthUpdate struct`. -/
structure DepthUpdate where
  EventType : String
  EventTime : Int64
  Symbol : String
  FirstUpdateID : Int64
  FinalUpdateID : Int64
  Bids : List OrderLevel
  Asks : List OrderLevel

/-- Go `map[string]float64`: one side of a book, price text to quantity. -/
abbrev Levels := AList (fun _ : String => Float64)

/-- Type `OrderBook struct` (without its lock). -/
structure OrderBook where
  Bids : Levels
  Asks : Levels
  LastUpdateID : Int64
deriving DecidableEq

/-- Type `OrderBookManager struct` (without its lock): `books` maps a symbol to
its book.  The Go map holds pointers, each to a book of its own. -/
structure OrderBookManager where
  books : AList (fun _ : String => OrderBook)
deriving DecidableEq

/-- Type `SortedLevel struct`. -/
structure SortedLevel where
  Price : Float64
  Amount : Float64
deriving DecidableEq

/-! ## Book store and snapshot install -/

/-- Method `OrderBookManager.getBook`: `none` is the nil pointer. -/
def getBook (obm : OrderBookManager) (symbol : String) : Option OrderBook :=
  obm.books.lookup symbol

/-- The loops of `fetchSnapshot` that build one side of the book:
`levels[l[0]] = qty` for every level of the snapshot, the parse error ignored. -/
def snapshotLevels (levels : List OrderLevel) : Levels :=
  levels.foldl (fun m l => m.insert l.1 (ParseFloat l.2).1) ∅

/-- Method `OrderBookManager.fetchSnapshot`.  The HTTP request and the JSON decoding
are outside the program: `fetched` is the decoded snapshot, or `none` when the
request or the decoding failed, in which case the function returns without
touching the store. -/
def fetchSnapshot (obm : OrderBookManager) (symbol : String)
    (fetched : Option OrderBookSnapshot) : OrderBookManager :=
  match fetched with
  | none => obm
  | some snapshot =>
    let bids := snapshotLevels snapshot.Bids
    let asks := snapshotLevels snapshot.Asks
    { books := obm.books.insert symbol
        { Bids := bids, Asks := asks, LastUpdateID := snapshot.LastUpdateID } }

/-! ## Diff reconciler -/

/-- The closure `updateLevels` of `applyUpdate`: for every change, in list
order, delete the price when the parsed quantity `== 0`, else store it. -/
def updateLevels (levels : Levels) (updates : List OrderLevel) : Levels :=
  updates.foldl
    (fun levels u =>
      let qty := (ParseFloat u.2).1
      if Float64.eq qty Float64.zero then levels.erase u.1 else levels.insert u.1 qty)
    levels

/-- Method `OrderBookManager.applyUpdate`.  The result is the store after the call and
the symbols for which the call started `go obm.fetchSnapshot(symbol)`.  The
book is updated in place, behind the pointer the store holds. -/
def applyUpdate (obm : OrderBookManager) (update : DepthUpdate) :
    OrderBookManager × List String :=
  match getBook obm update.Symbol with
  | none => (obm, [])
  | some book =>
    if Int64.le update.FinalUpdateID book.LastUpdateID then (obm, [])
    else if Int64.gt update.FirstUpdateID (Int64.add book.LastUpdateID (Int64.ofInt 1)) then
      (obm, [update.Symbol])
    else
      ({ books := obm.books.replace update.Symbol
          { Bids := updateLevels book.Bids update.Bids,
            Asks := updateLevels book.Asks update.Asks,
            LastUpdateID := update.FinalUpdateID } }, [])

/-! ## Query handler -/

/-- The inner loop of the insertion sort of package `sort`
(`for j := i; j > a && less(j, j-1); j-- { swap(j, j-1) }`): `x` is the element
that moves left, the list holds the elements to its left, nearest first, and the
result holds them and `x`, rightmost first. -/
def insertionStep {α : Type} (less : α → α → Bool) (x : α) : List α → List α
  | [] => [x]
  | y :: left => if less x y then y :: insertionStep less x left else x :: y :: left

/-- The insertion sort of package `sort` (`insertionSort_func`). -/
def insertionSort {α : Type} (less : α → α → Bool) (data : List α) : List α :=
  (data.foldl (fun done x => insertionStep less x done) []).reverse

/-- Go `sort.Slice(x, less)` with `less` given on elements.  The library runs the
insertion sort above on a slice of at most 12 elements.  On a longer slice it
runs a quicksort that is not stable: with a `less` that is a strict weak order
it returns some sorted permutation of the slice, and every sorted permutation is
what the insertion sort returns when the `range` loop that filled the slice
visited the map in the order of that permutation (`sortSlice_of_sorted`). -/
def sortSlice {α : Type} (less : α → α → Bool) (x : List α) : List α :=
  insertionSort less x

/-- One `range` loop of `getOrderBookHandler`: every entry of the map, in the
order of the visit, with its price text parsed (the parse error ignored). -/
def rangeLevels (levels : Levels) : List SortedLevel :=
  levels.entries.map (fun e => { Price := (ParseFloat e.1).1, Amount := e.2 })

/-- The truncation `if len(x) > 20 { x = x[:20] }`. -/
def truncate20 (x : List SortedLevel) : List SortedLevel :=
  if x.length > 20 then x.take 20 else x

/-- The `bids` slice of `getOrderBookHandler` before encoding. -/
def viewBids (book : OrderBook) : List SortedLevel :=
  truncate20 (sortSlice (fun a b => Float64.gt a.Price b.Price) (rangeLevels book.Bids))

/-- The `asks` slice of `getOrderBookHandler` before encoding. -/
def viewAsks (book : OrderBook) : List SortedLevel :=
  truncate20 (sortSlice (fun a b => Float64.lt a.Price b.Price) (rangeLevels book.Asks))

/-- The request, as far as the handler reads it: the pairs of `r.URL.Query()`
in the order of the query string. -/
structure Request where
  query : List (String × String)

/-- Go `r.URL.Query().Get(key)`: the first value of `key`, or the empty text. -/
def Request.queryGet (r : Request) (key : String) : String :=
  match r.query.find? (fun kv => kv.1 = key) with
  | some kv => kv.2
  | none => ""

/-- Go `strings.ToUpper`, with the rune mapping `unicode.ToUpper` of the standard
library's case tables as the parameter `upper`. -/
def ToUpper (upper : Char → Char) (s : String) : String := String.mk (s.toList.map upper)

/-- What the handler wrote as the body of the response. -/
inductive Body where
  | text (msg : String)
  | json (bids asks : List SortedLevel) (lastUpdateId : Int64)
  | empty
deriving DecidableEq

/-- The response: status code and body. -/
structure Response where
  status : Nat
  body : Body
deriving DecidableEq

/-- Package `encoding/json` refuses a `float64` that is an infinity or NaN. -/
def jsonFloatOK (f : Float64) : Bool := !f.isNaN && !f.isInf

/-- Go `json.NewEncoder(w).Encode(response)`: the encoder writes the document only
when the whole value encodes, and returns an error, which the handler drops,
when a number is an infinity or NaN; the response is then `200` with an empty
body. -/
def encodeResponse (bids asks : List SortedLevel) (lastUpdateId : Int64) : Body :=
  if (bids ++ asks).all (fun l => jsonFloatOK l.Price && jsonFloatOK l.Amount) then
    Body.json bids asks lastUpdateId
  else Body.empty

/-- Method `OrderBookManager.getOrderBookHandler`: the response and the store after the
call. -/
def getOrderBookHandler (upper : Char → Char) (obm : OrderBookManager) (r : Request) :
    Response × OrderBookManager :=
  let symbol := ToUpper upper (r.queryGet "symbol")
  if symbol = "" then ({ status := 400, body := Body.text "Missing symbol parameter" }, obm)
  else
    match getBook obm symbol with
    | none => ({ status := 404, body := Body.text "404 page not found" }, obm)
    | some book =>
      ({ status := 200,
         body := encodeResponse (viewBids book) (viewAsks book) book.LastUpdateID }, obm)

/-! ## The specification's reading of the diff reconciler -/

/-- One changed level as the specification describes it, on a price-to-quantity
mapping given as a function: set `levels[price] = quantity` unless
`quantity == 0`, in which case remove the key.  The quantity is the parsed
quantity text of the change. -/
def specApplyChange (levels : String → Option Float64) (change : OrderLevel) :
    String → Option Float64 :=
  fun price =>
    if price = change.1 then
      (if Float64.eq (ParseFloat change.2).1 Float64.zero then none
       else some (ParseFloat change.2).1)
    else levels price

/-- The changed levels of an update folded over a mapping, in list order. -/
def specApplyChanges (levels : String → Option Float64) (changes : List OrderLevel) :
    String → Option Float64 :=
  changes.foldl specApplyChange levels

/-- An update is accepted by a store when its symbol has a book and it passes
the staleness check and the gap check of `applyUpdate`. -/
def accepted (obm : OrderBookManager) (update : DepthUpdate) : Bool :=
  match getBook obm update.Symbol with
  | none => false
  | some book =>
    !Int64.le update.FinalUpdateID book.LastUpdateID &&
      !Int64.gt update.FirstUpdateID (Int64.add book.LastUpdateID (Int64.ofInt 1))

/-- A sequence of updates passed to `applyUpdate` one after the other, with no
snapshot install in between. -/
def applyUpdates (obm : OrderBookManager) (updates : List DepthUpdate) : OrderBookManager :=
  updates.foldl (fun s u => (applyUpdate s u).1) obm

/-- The last update of the sequence that `applyUpdate` accepted for `symbol`
when its turn came, or `prev` when there is none. -/
def lastAccepted (symbol : String) :
    OrderBookManager → List DepthUpdate → Option DepthUpdate → Option DepthUpdate
  | _, [], prev => prev
  | obm, u :: us, prev =>
    lastAccepted symbol (applyUpdate obm u).1 us
      (if u.Symbol = symbol ∧ accepted obm u = true then some u else prev)

/-- The `lastUpdateId` of the book of `symbol`, when there is one. -/
def lastUpdateIdOf (obm : OrderBookManager) (symbol : String) : Option Int :=
  (getBook obm symbol).map (fun b => b.LastUpdateID.val)

/-! ## Example data -/

/-- A depth update with the given symbol, id range and level changes. -/
def mkUpdate (symbol : String) (first final : Int) (bids asks : List OrderLevel) :
    DepthUpdate :=
  { EventType := "depthUpdate", EventTime := Int64.ofInt 0, Symbol := symbol,
    FirstUpdateID := Int64.ofInt first, FinalUpdateID := Int64.ofInt final,
    Bids := bids, Asks := asks }

/-- The store with no book. -/
def emptyStore : OrderBookManager := { books := ∅ }

/-- The store after the install of a snapshot for `BTCUSDT`. -/
def storeOf (lastUpdateId : Int) (bids asks : List OrderLevel) : OrderBookManager :=
  fetchSnapshot emptyStore "BTCUSDT"
    (some { LastUpdateID := Int64.ofInt lastUpdateId, Bids := bids, Asks := asks })

/-- The book that `storeOf` installs. -/
def bookOf (lastUpdateId : Int) (bids asks : List OrderLevel) : OrderBook :=
  { Bids := snapshotLevels bids, Asks := snapshotLevels asks,
    LastUpdateID := Int64.ofInt lastUpdateId }

/-- Thirty bid levels with distinct prices, in no particular order. -/
def thirtyBids : List OrderLevel :=
  [("121.77", "1.5"), ("105.85", "1.5"), ("115.55", "1.5"), ("129.73", "1.5"), ("107.59", "1.5"),
   ("128.36", "1.5"), ("109.33", "1.5"), ("100.00", "1.5"), ("113.81", "1.5"), ("108.96", "1.5"),
   ("127.99", "1.5"), ("122.14", "1.5"), ("126.62", "1.5"), ("114.18", "1.5"), ("123.51", "1.5"),
   ("124.88", "1.5"), ("119.03", "1.5"), ("106.22", "1.5"), ("116.92", "1.5"), ("125.25", "1.5"),
   ("118.66", "1.5"), ("111.07", "1.5"), ("103.11", "1.5"), ("117.29", "1.5"), ("102.74", "1.5"),
   ("101.37", "1.5"), ("120.40", "1.5"), ("112.44", "1.5"), ("104.48", "1.5"), ("110.70", "1.5")]

/-- Five ask levels, in no particular order. -/
def fiveAsks : List OrderLevel :=
  [("131.5", "1"), ("130.25", "2"), ("133", "3"), ("130.5", "4"), ("132.75", "5")]

/-! ## The quantity invariant -/

/-- Every stored quantity of one side of a book is `> 0`. -/
def levelsPositive (levels : Levels) : Bool :=
  levels.entries.all (fun e => Float64.gt e.2 Float64.zero)

/-- Every stored quantity of a book is `> 0`. -/
def bookPositive (book : OrderBook) : Bool :=
  levelsPositive book.Bids && levelsPositive book.Asks

/-- Every stored quantity of every book of the store is `> 0`. -/
def storePositive (obm : OrderBookManager) : Bool :=
  obm.books.entries.all (fun e => bookPositive e.2)

/-! ## The specification's reading of the snapshot install -/

/-- The quantity that "last write wins" gives a price in a list of snapshot
levels: the parsed quantity of the last level of the list that names the price,
or nothing when no level names it. -/
def lastWrite (levels : List OrderLevel) (price : String) : Option Float64 :=
  (levels.reverse.find? (fun l => l.1 = price)).map (fun l => (ParseFloat l.2).1)

/-! ## Quantity texts that are not numbers -/

/-- A text is not a syntactically valid number when `strconv.ParseFloat` returns
`ErrSyntax` for it. -/
def notANumber (s : String) : Bool := decide ((ParseFloat s).2 = some NumError.ErrSyntax)

/-- The level change with its quantity text replaced by `"0"` when that text is
not a number. -/
def zeroInvalid (l : OrderLevel) : OrderLevel := if notANumber l.2 then (l.1, "0") else l

/-- The update with every quantity text that is not a number replaced by `"0"`. -/
def zeroInvalidQuantities (update : DepthUpdate) : DepthUpdate :=
  { update with Bids := update.Bids.map zeroInvalid, Asks := update.Asks.map zeroInvalid }

/-! ## Auxiliary facts -/

theorem Int64.wrap_val_of_mem (z : Int) (h1 : -(2 ^ 63 : Int) ≤ z) (h2 : z < (2 ^ 63 : Int)) :
    (Int64.wrap z).val = z := by
  show (z + 2 ^ 63) % 2 ^ 64 - 2 ^ 63 = z
  rw [Int.emod_eq_of_lt (by omega) (by omega)]; omega

/-- Below the largest `int64`, `x + 1` does not wrap. -/
theorem Int64.add_one_val (x : Int64) (h : x.val < 2 ^ 63 - 1) :
    (Int64.add x (Int64.ofInt 1)).val = x.val + 1 := by
  have h1 : (Int64.ofInt 1).val = 1 := by decide
  have := x.lo
  unfold Int64.add
  rw [h1, Int64.wrap_val_of_mem _ (by omega) (by omega)]

theorem dlookup_kreplace {β : Type} (a a' : String) (b : β) (l : List (Sigma (fun _ : String => β))) :
    List.dlookup a' (List.kreplace a b l) =
      if a' = a ∧ a ∈ l.keys then some b else List.dlookup a' l := by
  induction l with
  | nil => simp [List.kreplace]
  | cons e t ih =>
    obtain ⟨k, v⟩ := e
    by_cases hk : a = k
    · subst hk
      by_cases ha : a' = a
      · subst ha
        simp [List.kreplace, List.lookmap_cons_some, List.dlookup_cons_eq]
      · have : a ≠ a' := fun h => ha h.symm
        simp [List.kreplace, List.lookmap_cons_some, List.dlookup_cons_ne, ha, this]
    · have hk' : ¬ k = a := fun h => hk h.symm
      have e1 : List.kreplace a b (⟨k, v⟩ :: t) = ⟨k, v⟩ :: List.kreplace a b t := by
        simp [List.kreplace, List.lookmap_cons_none, hk]
      rw [e1]
      by_cases ha : a' = k
      · subst ha
        simp [List.dlookup_cons_eq, hk']
      · have : k ≠ a' := fun h => ha h.symm
        simp [List.dlookup_cons_ne, ha, this, ih, hk]

theorem lookup_replace_self {β : Type} (a : String) (b : β) (s : AList (fun _ : String => β))
    (h : a ∈ s) : (s.replace a b).lookup a = some b := by
  have h' : a ∈ s.entries.keys := h
  show List.dlookup a (List.kreplace a b s.entries) = some b
  rw [dlookup_kreplace]; simp [h']

theorem lookup_replace_ne {β : Type} (a a' : String) (b : β) (s : AList (fun _ : String => β))
    (h : a' ≠ a) : (s.replace a b).lookup a' = s.lookup a' := by
  show List.dlookup a' (List.kreplace a b s.entries) = List.dlookup a' s.entries
  rw [dlookup_kreplace]; simp [h]

theorem getBook_storeOf (n : Int) (bids asks : List OrderLevel) :
    getBook (storeOf n bids asks) "BTCUSDT" = some (bookOf n bids asks) := by
  simp [getBook, storeOf, fetchSnapshot, bookOf, AList.lookup_insert]

theorem applyUpdate_of_absent (obm : OrderBookManager) (update : DepthUpdate)
    (h : getBook obm update.Symbol = none) : applyUpdate obm update = (obm, []) := by
  simp [applyUpdate, h]

theorem applyUpdate_of_stale (obm : OrderBookManager) (update : DepthUpdate) (book : OrderBook)
    (hbook : getBook obm update.Symbol = some book)
    (hstale : update.FinalUpdateID.val ≤ book.LastUpdateID.val) :
    applyUpdate obm update = (obm, []) := by
  simp [applyUpdate, hbook, Int64.le, hstale]

theorem applyUpdate_of_gap (obm : OrderBookManager) (update : DepthUpdate) (book : OrderBook)
    (hbook : getBook obm update.Symbol = some book)
    (hfinal : book.LastUpdateID.val < update.FinalUpdateID.val)
    (hgap : book.LastUpdateID.val + 1 < update.FirstUpdateID.val) :
    applyUpdate obm update = (obm, [update.Symbol]) := by
  have hlt : book.LastUpdateID.val < 2 ^ 63 - 1 := by
    have := update.FinalUpdateID.hi; omega
  have hadd := Int64.add_one_val book.LastUpdateID hlt
  have h1 : ¬ update.FinalUpdateID.val ≤ book.LastUpdateID.val := by omega
  simp [applyUpdate, hbook, Int64.le, Int64.gt, h1, hadd, hgap]

theorem applyUpdate_of_accept (obm : OrderBookManager) (update : DepthUpdate) (book : OrderBook)
    (hbook : getBook obm update.Symbol = some book)
    (hfinal : book.LastUpdateID.val < update.FinalUpdateID.val)
    (hfirst : update.FirstUpdateID.val ≤ book.LastUpdateID.val + 1) :
    applyUpdate obm update =
      ({ books := obm.books.replace update.Symbol
          { Bids := updateLevels book.Bids update.Bids,
            Asks := updateLevels book.Asks update.Asks,
            LastUpdateID := update.FinalUpdateID } }, []) := by
  have hlt : book.LastUpdateID.val < 2 ^ 63 - 1 := by
    have := update.FinalUpdateID.hi; omega
  have hadd := Int64.add_one_val book.LastUpdateID hlt
  have h1 : ¬ update.FinalUpdateID.val ≤ book.LastUpdateID.val := by omega
  have h2 : ¬ book.LastUpdateID.val + 1 < update.FirstUpdateID.val := by omega
  simp [applyUpdate, hbook, Int64.le, Int64.gt, h1, hadd, h2]

/-- The four outcomes of `applyUpdate`. -/
theorem applyUpdate_cases (obm : OrderBookManager) (update : DepthUpdate) :
    (getBook obm update.Symbol = none ∧ applyUpdate obm update = (obm, [])) ∨
    (∃ book, getBook obm update.Symbol = some book ∧
      update.FinalUpdateID.val ≤ book.LastUpdateID.val ∧ applyUpdate obm update = (obm, [])) ∨
    (∃ book, getBook obm update.Symbol = some book ∧
      book.LastUpdateID.val < update.FinalUpdateID.val ∧
      book.LastUpdateID.val + 1 < update.FirstUpdateID.val ∧
      applyUpdate obm update = (obm, [update.Symbol])) ∨
    (∃ book, getBook obm update.Symbol = some book ∧
      book.LastUpdateID.val < update.FinalUpdateID.val ∧
      update.FirstUpdateID.val ≤ book.LastUpdateID.val + 1 ∧
      applyUpdate obm update =
        ({ books := obm.books.replace update.Symbol
            { Bids := updateLevels book.Bids update.Bids,
              Asks := updateLevels book.Asks update.Asks,
              LastUpdateID := update.FinalUpdateID } }, [])) := by
  cases hb : getBook obm update.Symbol with
  | none => exact Or.inl ⟨rfl, applyUpdate_of_absent obm update hb⟩
  | some book =>
    right
    by_cases h1 : update.FinalUpdateID.val ≤ book.LastUpdateID.val
    · exact Or.inl ⟨book, rfl, h1, applyUpdate_of_stale obm update book hb h1⟩
    · right
      have h1' : book.LastUpdateID.val < update.FinalUpdateID.val := by omega
      by_cases h2 : book.LastUpdateID.val + 1 < update.FirstUpdateID.val
      · exact Or.inl ⟨book, rfl, h1', h2, applyUpdate_of_gap obm update book hb h1' h2⟩
      · exact Or.inr ⟨book, rfl, h1', by omega,
          applyUpdate_of_accept obm update book hb h1' (by omega)⟩

theorem getBook_replace_self (obm : OrderBookManager) (symbol : String) (book new : OrderBook)
    (hbook : getBook obm symbol = some book) :
    getBook { books := obm.books.replace symbol new } symbol = some new := by
  have hmem : symbol ∈ obm.books := by
    rw [← AList.lookup_isSome]
    unfold getBook at hbook
    simp [hbook]
  exact lookup_replace_self symbol new obm.books hmem

theorem getBook_replace_ne (obm : OrderBookManager) (symbol other : String) (new : OrderBook)
    (h : other ≠ symbol) :
    getBook { books := obm.books.replace symbol new } other = getBook obm other :=
  lookup_replace_ne symbol other new obm.books h

/-- The code's `updateLevels` computes the specification's fold. -/
theorem lookup_updateLevels (levels : Levels) (updates : List OrderLevel) (price : String) :
    (updateLevels levels updates).lookup price =
      specApplyChanges (fun p => levels.lookup p) updates price := by
  induction updates generalizing levels with
  | nil => rfl
  | cons u us ih =>
    have hstep : updateLevels levels (u :: us) =
        updateLevels (if Float64.eq (ParseFloat u.2).1 Float64.zero then levels.erase u.1
          else levels.insert u.1 (ParseFloat u.2).1) us := rfl
    have hspec : specApplyChanges (fun p => levels.lookup p) (u :: us) =
        specApplyChanges (specApplyChange (fun p => levels.lookup p) u) us := rfl
    rw [hstep, hspec, ih]
    congr 1
    funext p
    unfold specApplyChange
    by_cases hp : p = u.1
    · subst hp
      by_cases hz : Float64.eq (ParseFloat u.2).1 Float64.zero = true
      · simp [hz, AList.lookup_erase]
      · simp [hz, AList.lookup_insert]
    · by_cases hz : Float64.eq (ParseFloat u.2).1 Float64.zero = true
      · simp [hz, hp, AList.lookup_erase_ne hp]
      · simp [hz, hp, AList.lookup_insert_ne hp]

/-! ## The diff reconciler -/

/-- C1: when the symbol of the update has a book and the update passes both
checks (`finalUpdateId > book.lastUpdateId` and
`firstUpdateId <= book.lastUpdateId + 1`), the book after `applyUpdate` holds, on
each side, the result of folding the changes of the update over the side in list
order (each change sets `levels[price] = qty`, or removes `price` when
`qty == 0`), and its `lastUpdateId` is the `finalUpdateId` of the update. -/
theorem applyUpdate_accepted_folds_changes (obm : OrderBookManager) (update : DepthUpdate)
    (book : OrderBook)
    (hbook : getBook obm update.Symbol = some book)
    (hfinal : book.LastUpdateID.val < update.FinalUpdateID.val)
    (hfirst : update.FirstUpdateID.val ≤ book.LastUpdateID.val + 1) :
    ∃ after, getBook (applyUpdate obm update).1 update.Symbol = some after ∧
      (∀ price, after.Bids.lookup price =
        specApplyChanges (fun p => book.Bids.lookup p) update.Bids price) ∧
      (∀ price, after.Asks.lookup price =
        specApplyChanges (fun p => book.Asks.lookup p) update.Asks price) ∧
      after.LastUpdateID = update.FinalUpdateID := by
  rw [applyUpdate_of_accept obm update book hbook hfinal hfirst]
  exact ⟨_, getBook_replace_self obm update.Symbol book _ hbook,
    fun price => lookup_updateLevels book.Bids update.Bids price,
    fun price => lookup_updateLevels book.Asks update.Asks price, rfl⟩

/-- C1, the level upsert example: after the snapshot with `lastUpdateId = 10`
and bids `[["100.5","2.0"]]`, the diff with ids `11..11` and bids
`[["100.5","3.0"]]` passes the checks, and the book then maps `100.5` to `3.0`
(bits `0x4008000000000000`) with `lastUpdateId = 11`. -/
theorem applyUpdate_accepted_folds_changes_witness :
    (∃ after,
      getBook (applyUpdate (storeOf 10 [("100.5", "2.0")] [])
        (mkUpdate "BTCUSDT" 11 11 [("100.5", "3.0")] [])).1 "BTCUSDT" = some after ∧
      (∀ price, after.Bids.lookup price =
        specApplyChanges (fun p => (bookOf 10 [("100.5", "2.0")] []).Bids.lookup p)
          [("100.5", "3.0")] price) ∧
      (∀ price, after.Asks.lookup price =
        specApplyChanges (fun p => (bookOf 10 [("100.5", "2.0")] []).Asks.lookup p) [] price) ∧
      after.LastUpdateID = Int64.ofInt 11) ∧
    (getBook (applyUpdate (storeOf 10 [("100.5", "2.0")] [])
        (mkUpdate "BTCUSDT" 11 11 [("100.5", "3.0")] [])).1 "BTCUSDT").map
      (fun b => (b.Bids.entries, b.Asks.entries, b.LastUpdateID.val)) =
      some ([⟨"100.5", Float64.ofBits 0x4008000000000000⟩], [], 11) :=
  ⟨applyUpdate_accepted_folds_changes (storeOf 10 [("100.5", "2.0")] [])
      (mkUpdate "BTCUSDT" 11 11 [("100.5", "3.0")] []) (bookOf 10 [("100.5", "2.0")] [])
      (getBook_storeOf 10 _ _) (by decide) (by decide),
    by decide⟩

/-- C2 as stated fails: with `book.lastUpdateId = 100`, the update with
`firstUpdateId = 105` and `finalUpdateId = 100` has
`firstUpdateId > book.lastUpdateId + 1`, yet the staleness check returns first
and no snapshot load is requested. -/
theorem gap_without_final_counterexample :
    getBook (storeOf 100 [] []) "BTCUSDT" = some (bookOf 100 [] []) ∧
    (bookOf 100 [] []).LastUpdateID.val + 1 <
      (mkUpdate "BTCUSDT" 105 100 [] []).FirstUpdateID.val ∧
    (applyUpdate (storeOf 100 [] []) (mkUpdate "BTCUSDT" 105 100 [] [])).2 = [] := by
  refine ⟨getBook_storeOf 100 _ _, by decide, by decide⟩

/-- C2 (amended): when the symbol of the update has a book,
`finalUpdateId > book.lastUpdateId` and `firstUpdateId > book.lastUpdateId + 1`,
`applyUpdate` leaves the store as it is (so bids, asks and `lastUpdateId` of the
book are unchanged) and requests exactly one snapshot load, for the symbol of
the update. -/
theorem applyUpdate_gap_requests_snapshot (obm : OrderBookManager) (update : DepthUpdate)
    (book : OrderBook)
    (hbook : getBook obm update.Symbol = some book)
    (hfinal : book.LastUpdateID.val < update.FinalUpdateID.val)
    (hgap : book.LastUpdateID.val + 1 < update.FirstUpdateID.val) :
    applyUpdate obm update = (obm, [update.Symbol]) :=
  applyUpdate_of_gap obm update book hbook hfinal hgap

/-- C2, the example: `book.lastUpdateId = 100`, update `105..110`. -/
theorem applyUpdate_gap_requests_snapshot_witness :
    applyUpdate (storeOf 100 [("100.5", "2.0")] []) (mkUpdate "BTCUSDT" 105 110 [] []) =
      (storeOf 100 [("100.5", "2.0")] [], ["BTCUSDT"]) :=
  applyUpdate_gap_requests_snapshot (storeOf 100 [("100.5", "2.0")] [])
    (mkUpdate "BTCUSDT" 105 110 [] []) (bookOf 100 [("100.5", "2.0")] [])
    (getBook_storeOf 100 _ _) (by decide) (by decide)

/-- C3: when the symbol of the update has a book and
`finalUpdateId <= book.lastUpdateId`, `applyUpdate` leaves the store as it is and
requests no snapshot load, whatever `firstUpdateId` and the level lists are. -/
theorem applyUpdate_stale_no_change (obm : OrderBookManager) (update : DepthUpdate)
    (book : OrderBook)
    (hbook : getBook obm update.Symbol = some book)
    (hstale : update.FinalUpdateID.val ≤ book.LastUpdateID.val) :
    applyUpdate obm update = (obm, []) :=
  applyUpdate_of_stale obm update book hbook hstale

/-- C3 at a book with `lastUpdateId = 100` and an update `90..100` that names
levels. -/
theorem applyUpdate_stale_no_change_witness :
    applyUpdate (storeOf 100 [("100.5", "2.0")] [])
        (mkUpdate "BTCUSDT" 90 100 [("100.5", "0")] [("101", "1")]) =
      (storeOf 100 [("100.5", "2.0")] [], []) :=
  applyUpdate_stale_no_change (storeOf 100 [("100.5", "2.0")] [])
    (mkUpdate "BTCUSDT" 90 100 [("100.5", "0")] [("101", "1")])
    (bookOf 100 [("100.5", "2.0")] []) (getBook_storeOf 100 _ _) (by decide)

/-- C4: applying the same update a second time leaves the store as the first
application left it, for every store and every update. -/
theorem applyUpdate_idempotent (obm : OrderBookManager) (update : DepthUpdate) :
    (applyUpdate (applyUpdate obm update).1 update).1 = (applyUpdate obm update).1 := by
  rcases applyUpdate_cases obm update with
    ⟨_, h⟩ | ⟨_, _, _, h⟩ | ⟨_, _, _, _, h⟩ | ⟨book, hb, _, _, h⟩
  · rw [h]; simp [h]
  · rw [h]; simp [h]
  · rw [h]; simp [h]
  · rw [h]
    have hnew := getBook_replace_self obm update.Symbol book
      { Bids := updateLevels book.Bids update.Bids,
        Asks := updateLevels book.Asks update.Asks,
        LastUpdateID := update.FinalUpdateID } hb
    rw [applyUpdate_of_stale _ update _ hnew (le_refl _)]

/-- C10: `applyUpdate` keeps the symbols of the store and the book of every
symbol other than the symbol of the update; when the symbol of the update has no
book, the store is unchanged and no snapshot load is requested. -/
theorem applyUpdate_frame (obm : OrderBookManager) (update : DepthUpdate) :
    (applyUpdate obm update).1.books.keys = obm.books.keys ∧
    (∀ symbol, symbol ≠ update.Symbol →
      getBook (applyUpdate obm update).1 symbol = getBook obm symbol) ∧
    (getBook obm update.Symbol = none → applyUpdate obm update = (obm, [])) := by
  refine ⟨?_, ?_, applyUpdate_of_absent obm update⟩
  · rcases applyUpdate_cases obm update with
      ⟨_, h⟩ | ⟨_, _, _, h⟩ | ⟨_, _, _, _, h⟩ | ⟨book, hb, _, _, h⟩
    · rw [h]
    · rw [h]
    · rw [h]
    · rw [h]; exact AList.keys_replace _ _ _
  · intro symbol hne
    rcases applyUpdate_cases obm update with
      ⟨_, h⟩ | ⟨_, _, _, h⟩ | ⟨_, _, _, _, h⟩ | ⟨book, hb, _, _, h⟩
    · rw [h]
    · rw [h]
    · rw [h]
    · rw [h]; exact getBook_replace_ne obm update.Symbol symbol _ hne

/-! ## Sequences of updates -/

theorem accepted_iff (obm : OrderBookManager) (update : DepthUpdate) :
    accepted obm update = true ↔
      ∃ book, getBook obm update.Symbol = some book ∧
        book.LastUpdateID.val < update.FinalUpdateID.val ∧
        update.FirstUpdateID.val ≤ book.LastUpdateID.val + 1 := by
  unfold accepted
  cases hb : getBook obm update.Symbol with
  | none => simp
  | some book =>
    simp only [Option.some.injEq, exists_eq_left', Bool.and_eq_true, Bool.not_eq_true',
      Int64.le, Int64.gt, decide_eq_false_iff_not, not_le, not_lt]
    constructor
    · rintro ⟨h1, h2⟩
      have hlt : book.LastUpdateID.val < 2 ^ 63 - 1 := by
        have := update.FinalUpdateID.hi; omega
      rw [Int64.add_one_val book.LastUpdateID hlt] at h2
      exact ⟨h1, h2⟩
    · rintro ⟨h1, h2⟩
      have hlt : book.LastUpdateID.val < 2 ^ 63 - 1 := by
        have := update.FinalUpdateID.hi; omega
      rw [Int64.add_one_val book.LastUpdateID hlt]
      exact ⟨h1, h2⟩

/-- One call of `applyUpdate`, seen from the book of `symbol`: the book stays, its
`lastUpdateId` does not decrease, and it becomes the `finalUpdateId` of the
update exactly when the update is for `symbol` and is accepted. -/
theorem applyUpdate_lastUpdateId (obm : OrderBookManager) (update : DepthUpdate)
    (symbol : String) (book : OrderBook) (hbook : getBook obm symbol = some book) :
    ∃ after, getBook (applyUpdate obm update).1 symbol = some after ∧
      book.LastUpdateID.val ≤ after.LastUpdateID.val ∧
      after.LastUpdateID.val =
        (if update.Symbol = symbol ∧ accepted obm update = true
          then update.FinalUpdateID.val else book.LastUpdateID.val) := by
  by_cases hacc : accepted obm update = true
  · obtain ⟨b, hb, hfinal, hfirst⟩ := (accepted_iff obm update).mp hacc
    rw [applyUpdate_of_accept obm update b hb hfinal hfirst]
    by_cases hs : update.Symbol = symbol
    · subst hs
      rw [hbook] at hb
      cases hb
      refine ⟨_, getBook_replace_self obm update.Symbol book _ hbook, ?_, ?_⟩
      · exact le_of_lt hfinal
      · simp [hacc]
    · refine ⟨book, ?_, le_refl _, ?_⟩
      · rw [getBook_replace_ne obm update.Symbol symbol _ (fun h => hs h.symm)]; exact hbook
      · simp [hs]
  · have hsame : (applyUpdate obm update).1 = obm := by
      rcases applyUpdate_cases obm update with
        ⟨_, h⟩ | ⟨_, _, _, h⟩ | ⟨_, _, _, _, h⟩ | ⟨b, hb, h1, h2, _⟩
      · rw [h]
      · rw [h]
      · rw [h]
      · exact absurd ((accepted_iff obm update).mpr ⟨b, hb, h1, h2⟩) hacc
    rw [hsame]
    exact ⟨book, hbook, le_refl _, by simp [hacc]⟩

/-- The book of a symbol stays through a sequence of updates. -/
theorem getBook_applyUpdates (symbol : String) (updates : List DepthUpdate) :
    ∀ (obm : OrderBookManager) (book : OrderBook), getBook obm symbol = some book →
      ∃ after, getBook (applyUpdates obm updates) symbol = some after := by
  induction updates with
  | nil => intro obm book hbook; exact ⟨book, hbook⟩
  | cons u us ih =>
    intro obm book hbook
    obtain ⟨b1, hb1, _, _⟩ := applyUpdate_lastUpdateId obm u symbol book hbook
    exact ih (applyUpdate obm u).1 b1 hb1

/-- The `finalUpdateId` of an accepted update, or `start` when there is none. -/
theorem lastUpdateIdOf_applyUpdates (symbol : String) (start : Int)
    (updates : List DepthUpdate) :
    ∀ (obm : OrderBookManager) (book : OrderBook) (prev : Option DepthUpdate),
      getBook obm symbol = some book →
      (match prev with
        | some u => u.FinalUpdateID.val
        | none => start) = book.LastUpdateID.val →
      lastUpdateIdOf (applyUpdates obm updates) symbol =
        some (match lastAccepted symbol obm updates prev with
          | some u => u.FinalUpdateID.val
          | none => start) := by
  induction updates with
  | nil =>
    intro obm book prev hbook hprev
    simp only [applyUpdates, List.foldl_nil, lastAccepted, lastUpdateIdOf, hbook, Option.map_some']
    rw [hprev]
  | cons u us ih =>
    intro obm book prev hbook hprev
    obtain ⟨b1, hb1, _, hid⟩ := applyUpdate_lastUpdateId obm u symbol book hbook
    have := ih (applyUpdate obm u).1 b1
      (if u.Symbol = symbol ∧ accepted obm u = true then some u else prev) hb1
      (by
        rw [hid]
        by_cases hc : u.Symbol = symbol ∧ accepted obm u = true
        · simp [hc]
        · simp only [hc, if_false]; exact hprev)
    exact this

/-- C5: for a symbol that has a book and every finite sequence of updates passed
to `applyUpdate`, the `lastUpdateId` of the book after each step is at least its
value before the step, and after the whole sequence it is the `finalUpdateId` of
the last update that was accepted for the symbol, or the `lastUpdateId` the book
started with when none was accepted. -/
theorem lastUpdateId_nondecreasing_last_accepted (obm : OrderBookManager) (symbol : String)
    (book : OrderBook) (updates : List DepthUpdate)
    (hbook : getBook obm symbol = some book) :
    (∀ (done : List DepthUpdate) (next : DepthUpdate) (rest : List DepthUpdate),
      updates = done ++ next :: rest →
      ∃ before after,
        getBook (applyUpdates obm done) symbol = some before ∧
        getBook (applyUpdate (applyUpdates obm done) next).1 symbol = some after ∧
        before.LastUpdateID.val ≤ after.LastUpdateID.val) ∧
    lastUpdateIdOf (applyUpdates obm updates) symbol =
      some (match lastAccepted symbol obm updates none with
        | some u => u.FinalUpdateID.val
        | none => book.LastUpdateID.val) := by
  constructor
  · intro done next rest _
    obtain ⟨before, hbefore⟩ := getBook_applyUpdates symbol done obm book hbook
    obtain ⟨after, hafter, hle, _⟩ :=
      applyUpdate_lastUpdateId (applyUpdates obm done) next symbol before hbefore
    exact ⟨before, after, hbefore, hafter, hle⟩
  · exact lastUpdateIdOf_applyUpdates symbol book.LastUpdateID.val updates obm book none
      hbook rfl

set_option maxRecDepth 8000 in
/-- C5 at the book installed with `lastUpdateId = 10` and the sequence: `11..11`
(accepted), `5..9` (stale), `20..25` (gap), `12..13` (accepted), `14..14` for
another symbol; the book ends with `lastUpdateId = 13`, and with `10` when only
the stale and the gapped update are passed. -/
theorem lastUpdateId_nondecreasing_last_accepted_witness :
    ((∀ (done : List DepthUpdate) (next : DepthUpdate) (rest : List DepthUpdate),
      [mkUpdate "BTCUSDT" 11 11 [("100.5", "3.0")] [], mkUpdate "BTCUSDT" 5 9 [] [],
        mkUpdate "BTCUSDT" 20 25 [] [], mkUpdate "BTCUSDT" 12 13 [] [("101", "1")],
        mkUpdate "ETHUSDT" 14 14 [] []] = done ++ next :: rest →
      ∃ before after,
        getBook (applyUpdates (storeOf 10 [("100.5", "2.0")] []) done) "BTCUSDT" = some before ∧
        getBook (applyUpdate (applyUpdates (storeOf 10 [("100.5", "2.0")] []) done) next).1
          "BTCUSDT" = some after ∧
        before.LastUpdateID.val ≤ after.LastUpdateID.val) ∧
    lastUpdateIdOf (applyUpdates (storeOf 10 [("100.5", "2.0")] [])
        [mkUpdate "BTCUSDT" 11 11 [("100.5", "3.0")] [], mkUpdate "BTCUSDT" 5 9 [] [],
          mkUpdate "BTCUSDT" 20 25 [] [], mkUpdate "BTCUSDT" 12 13 [] [("101", "1")],
          mkUpdate "ETHUSDT" 14 14 [] []]) "BTCUSDT" =
      some (match lastAccepted "BTCUSDT" (storeOf 10 [("100.5", "2.0")] [])
          [mkUpdate "BTCUSDT" 11 11 [("100.5", "3.0")] [], mkUpdate "BTCUSDT" 5 9 [] [],
            mkUpdate "BTCUSDT" 20 25 [] [], mkUpdate "BTCUSDT" 12 13 [] [("101", "1")],
            mkUpdate "ETHUSDT" 14 14 [] []] none with
        | some u => u.FinalUpdateID.val
        | none => (bookOf 10 [("100.5", "2.0")] []).LastUpdateID.val)) ∧
    lastUpdateIdOf (applyUpdates (storeOf 10 [("100.5", "2.0")] [])
        [mkUpdate "BTCUSDT" 11 11 [("100.5", "3.0")] [], mkUpdate "BTCUSDT" 5 9 [] [],
          mkUpdate "BTCUSDT" 20 25 [] [], mkUpdate "BTCUSDT" 12 13 [] [("101", "1")],
          mkUpdate "ETHUSDT" 14 14 [] []]) "BTCUSDT" = some 13 ∧
    lastUpdateIdOf (applyUpdates (storeOf 10 [("100.5", "2.0")] [])
        [mkUpdate "BTCUSDT" 5 9 [] [], mkUpdate "BTCUSDT" 20 25 [] []]) "BTCUSDT" = some 10 :=
  ⟨lastUpdateId_nondecreasing_last_accepted (storeOf 10 [("100.5", "2.0")] []) "BTCUSDT"
      (bookOf 10 [("100.5", "2.0")] []) _ (getBook_storeOf 10 _ _),
    by decide, by decide⟩

/-! ## The quantity invariant -/

theorem Float64.gt_zero_of_ge_of_not_eq (q : Float64)
    (hge : Float64.ge q Float64.zero = true) (hne : Float64.eq q Float64.zero = false) :
    Float64.gt q Float64.zero = true := by
  simp only [Float64.ge, Float64.eq, Float64.gt, Float64.lt, Bool.and_eq_true,
    Bool.not_eq_true', decide_eq_true_eq, Bool.and_eq_false_iff, Bool.not_eq_false',
    decide_eq_false_iff_not] at *
  obtain ⟨⟨h1, h2⟩, h3⟩ := hge
  refine ⟨⟨h2, h1⟩, ?_⟩
  rcases hne with (h | h) | h
  · rw [h1] at h; cases h
  · rw [h2] at h; cases h
  · omega

theorem levelsPositive_iff (levels : Levels) :
    levelsPositive levels = true ↔
      ∀ price qty, levels.lookup price = some qty → Float64.gt qty Float64.zero = true := by
  unfold levelsPositive
  rw [List.all_eq_true]
  constructor
  · intro h price qty hl
    exact h ⟨price, qty⟩ (AList.mem_lookup_iff.mp hl)
  · rintro h ⟨price, qty⟩ he
    exact h price qty (AList.mem_lookup_iff.mpr he)

theorem storePositive_iff (obm : OrderBookManager) :
    storePositive obm = true ↔
      ∀ symbol book, getBook obm symbol = some book → bookPositive book = true := by
  unfold storePositive getBook
  rw [List.all_eq_true]
  constructor
  · intro h symbol book hl
    exact h ⟨symbol, book⟩ (AList.mem_lookup_iff.mp hl)
  · rintro h ⟨symbol, book⟩ he
    exact h symbol book (AList.mem_lookup_iff.mpr he)

theorem updateLevels_positive (updates : List OrderLevel)
    (hq : ∀ l ∈ updates, Float64.ge (ParseFloat l.2).1 Float64.zero = true) :
    ∀ levels : Levels, levelsPositive levels = true →
      levelsPositive (updateLevels levels updates) = true := by
  induction updates with
  | nil => intro levels h; exact h
  | cons u us ih =>
    intro levels h
    have hu := hq u (List.mem_cons_self _ _)
    have hstep : updateLevels levels (u :: us) =
        updateLevels (if Float64.eq (ParseFloat u.2).1 Float64.zero then levels.erase u.1
          else levels.insert u.1 (ParseFloat u.2).1) us := rfl
    rw [hstep]
    apply ih (fun l hl => hq l (List.mem_cons_of_mem _ hl))
    rw [levelsPositive_iff] at h ⊢
    intro price qty hl
    by_cases hz : Float64.eq (ParseFloat u.2).1 Float64.zero = true
    · rw [if_pos hz] at hl
      by_cases hp : price = u.1
      · subst hp; rw [AList.lookup_erase] at hl; cases hl
      · rw [AList.lookup_erase_ne hp] at hl; exact h price qty hl
    · rw [if_neg hz] at hl
      by_cases hp : price = u.1
      · subst hp
        rw [AList.lookup_insert] at hl
        cases hl
        exact Float64.gt_zero_of_ge_of_not_eq _ hu (by simpa using hz)
      · rw [AList.lookup_insert_ne hp] at hl; exact h price qty hl

theorem foldl_insert_positive (levels : List OrderLevel)
    (hq : ∀ l ∈ levels, Float64.gt (ParseFloat l.2).1 Float64.zero = true) :
    ∀ m : Levels, levelsPositive m = true →
      levelsPositive (levels.foldl (fun m l => m.insert l.1 (ParseFloat l.2).1) m) = true := by
  induction levels with
  | nil => intro m h; exact h
  | cons l ls ih =>
    intro m h
    rw [List.foldl_cons]
    apply ih (fun x hx => hq x (List.mem_cons_of_mem _ hx))
    rw [levelsPositive_iff] at h ⊢
    intro price qty hl
    by_cases hp : price = l.1
    · subst hp
      rw [AList.lookup_insert] at hl
      cases hl
      exact hq l (List.mem_cons_self _ _)
    · rw [AList.lookup_insert_ne hp] at hl; exact h price qty hl

theorem snapshotLevels_positive (levels : List OrderLevel)
    (hq : ∀ l ∈ levels, Float64.gt (ParseFloat l.2).1 Float64.zero = true) :
    levelsPositive (snapshotLevels levels) = true :=
  foldl_insert_positive levels hq ∅ rfl

/-- C6 as stated fails twice: the snapshot install stores the quantity `0` of
the level `["100.5","0"]`, and `applyUpdate` stores the quantity `-1` of the
change `["100.5","-1"]` in a book whose quantities were all `> 0`. -/
theorem positive_quantity_counterexample :
    (getBook (storeOf 10 [("100.5", "0")] []) "BTCUSDT").map
        (fun b => (b.Bids.entries, bookPositive b)) =
      some ([⟨"100.5", Float64.zero⟩], false) ∧
    storePositive (storeOf 10 [("100.5", "2.0")] []) = true ∧
    storePositive
      (applyUpdate (storeOf 10 [("100.5", "2.0")] [])
        (mkUpdate "BTCUSDT" 11 11 [("100.5", "-1")] [])).1 = false := by
  refine ⟨by decide, by decide, by decide⟩

/-- C6 (amended): the book that a snapshot install builds has only quantities
`> 0` when every quantity text of the snapshot parses to a value `> 0`; and
`applyUpdate` keeps "every stored quantity of every book is `> 0`" for every
update whose quantity texts all parse to a value `>= 0` (a zero removes the
level), whatever the price texts are. -/
theorem positive_quantities_kept (obm : OrderBookManager) (symbol : String)
    (snapshot : OrderBookSnapshot) (update : DepthUpdate) :
    ((∀ l ∈ snapshot.Bids ++ snapshot.Asks,
        Float64.gt (ParseFloat l.2).1 Float64.zero = true) →
      ∃ book, getBook (fetchSnapshot obm symbol (some snapshot)) symbol = some book ∧
        bookPositive book = true) ∧
    ((∀ l ∈ update.Bids ++ update.Asks,
        Float64.ge (ParseFloat l.2).1 Float64.zero = true) →
      storePositive obm = true → storePositive (applyUpdate obm update).1 = true) := by
  constructor
  · intro hq
    refine ⟨_, AList.lookup_insert _, ?_⟩
    simp only [bookPositive, Bool.and_eq_true]
    exact ⟨snapshotLevels_positive _ (fun l hl => hq l (List.mem_append_left _ hl)),
      snapshotLevels_positive _ (fun l hl => hq l (List.mem_append_right _ hl))⟩
  · intro hq hpos
    rcases applyUpdate_cases obm update with
      ⟨_, h⟩ | ⟨_, _, _, h⟩ | ⟨_, _, _, _, h⟩ | ⟨book, hb, _, _, h⟩
    · rw [h]; exact hpos
    · rw [h]; exact hpos
    · rw [h]; exact hpos
    · rw [h]
      rw [storePositive_iff] at hpos ⊢
      intro s b hs
      by_cases hsym : s = update.Symbol
      · subst hsym
        rw [getBook_replace_self obm update.Symbol book _ hb] at hs
        cases hs
        have hbook := hpos update.Symbol book hb
        simp only [bookPositive, Bool.and_eq_true] at hbook ⊢
        exact ⟨updateLevels_positive _ (fun l hl => hq l (List.mem_append_left _ hl)) _ hbook.1,
          updateLevels_positive _ (fun l hl => hq l (List.mem_append_right _ hl)) _ hbook.2⟩
      · rw [getBook_replace_ne obm update.Symbol s _ hsym] at hs
        exact hpos s b hs

/-- C6 (amended) at a snapshot with quantities `2.0` and `0.5`, and at the update
`11..11` that removes `100.5` with quantity `0` and sets `101` to `1.5`. -/
theorem positive_quantities_kept_witness :
    (∃ book, getBook (fetchSnapshot emptyStore "BTCUSDT"
        (some { LastUpdateID := Int64.ofInt 10, Bids := [("100.5", "2.0")],
                Asks := [("100.7", "0.5")] })) "BTCUSDT" = some book ∧
      bookPositive book = true) ∧
    storePositive (applyUpdate (storeOf 10 [("100.5", "2.0")] [])
      (mkUpdate "BTCUSDT" 11 11 [("100.5", "0"), ("101", "1.5")] [])).1 = true :=
  ⟨(positive_quantities_kept emptyStore "BTCUSDT"
      { LastUpdateID := Int64.ofInt 10, Bids := [("100.5", "2.0")],
        Asks := [("100.7", "0.5")] }
      (mkUpdate "BTCUSDT" 11 11 [] [])).1 (by decide),
   (positive_quantities_kept (storeOf 10 [("100.5", "2.0")] []) "BTCUSDT"
      { LastUpdateID := Int64.ofInt 10, Bids := [], Asks := [] }
      (mkUpdate "BTCUSDT" 11 11 [("100.5", "0"), ("101", "1.5")] [])).2
      (by decide) (by decide)⟩

/-! ## Sorting -/

theorem insertionStep_perm {α : Type} (less : α → α → Bool) (x : α) (l : List α) :
    (insertionStep less x l).Perm (x :: l) := by
  induction l with
  | nil => exact List.Perm.refl _
  | cons y left ih =>
    unfold insertionStep
    by_cases h : less x y = true
    · rw [if_pos h]
      exact (List.Perm.cons y ih).trans (List.Perm.swap x y left)
    · rw [if_neg h]

theorem foldl_insertionStep_perm {α : Type} (less : α → α → Bool) (data : List α) :
    ∀ done : List α,
      (data.foldl (fun done x => insertionStep less x done) done).Perm (data.reverse ++ done) := by
  induction data with
  | nil => intro done; exact List.Perm.refl _
  | cons x xs ih =>
    intro done
    rw [List.foldl_cons, List.reverse_cons, List.append_assoc]
    exact (ih _).trans (List.Perm.append_left _ (insertionStep_perm less x done))

/-- The sort returns a permutation of the slice, whatever `less` is. -/
theorem sortSlice_perm {α : Type} (less : α → α → Bool) (data : List α) :
    (sortSlice less data).Perm data := by
  unfold sortSlice insertionSort
  have h := foldl_insertionStep_perm less data []
  rw [List.append_nil] at h
  exact (List.reverse_perm _).trans (h.trans (List.reverse_perm _))

theorem foldl_insertionStep_of_sorted {α : Type} (less : α → α → Bool) :
    ∀ (data done : List α),
      (done.reverse ++ data).Pairwise (fun a b => less b a = false) →
      data.foldl (fun done x => insertionStep less x done) done = data.reverse ++ done := by
  intro data
  induction data with
  | nil => intro done _; rfl
  | cons x xs ih =>
    intro done h
    have hstep : insertionStep less x done = x :: done := by
      cases done with
      | nil => rfl
      | cons y left =>
        have hxy : less x y = false :=
          (List.pairwise_append.mp h).2.2 y (by simp) x (List.mem_cons_self _ _)
        unfold insertionStep
        rw [if_neg (by rw [hxy]; exact Bool.false_ne_true)]
    rw [List.foldl_cons, hstep, ih (x :: done) (by simpa using h)]
    simp

/-- A slice in which no element is `less` than an earlier one is returned as it
is: every such order of the elements is an outcome of the sort, namely when
`range` visits the map in that order. -/
theorem sortSlice_of_sorted {α : Type} (less : α → α → Bool) (data : List α)
    (h : data.Pairwise (fun a b => less b a = false)) : sortSlice less data = data := by
  unfold sortSlice insertionSort
  rw [foldl_insertionStep_of_sorted less data [] (by simpa using h)]
  simp

theorem truncate20_eq_take (x : List SortedLevel) : truncate20 x = x.take 20 := by
  unfold truncate20
  by_cases h : x.length > 20
  · rw [if_pos h]
  · rw [if_neg h, List.take_of_length_le (by omega)]

theorem mem_rangeLevels (levels : Levels) (v : SortedLevel) (h : v ∈ rangeLevels levels) :
    ∃ price, levels.lookup price = some v.Amount ∧ v.Price = (ParseFloat price).1 := by
  unfold rangeLevels at h
  rw [List.mem_map] at h
  obtain ⟨⟨price, qty⟩, he, rfl⟩ := h
  exact ⟨price, AList.mem_lookup_iff.mpr he, rfl⟩

/-- Every listed bid is a level of the book. -/
theorem mem_viewBids (book : OrderBook) (v : SortedLevel) (h : v ∈ viewBids book) :
    ∃ price, book.Bids.lookup price = some v.Amount ∧ v.Price = (ParseFloat price).1 := by
  unfold viewBids at h
  rw [truncate20_eq_take] at h
  exact mem_rangeLevels _ v ((sortSlice_perm _ _).subset (List.mem_of_mem_take h))

/-- Every listed ask is a level of the book. -/
theorem mem_viewAsks (book : OrderBook) (v : SortedLevel) (h : v ∈ viewAsks book) :
    ∃ price, book.Asks.lookup price = some v.Amount ∧ v.Price = (ParseFloat price).1 := by
  unfold viewAsks at h
  rw [truncate20_eq_take] at h
  exact mem_rangeLevels _ v ((sortSlice_perm _ _).subset (List.mem_of_mem_take h))

/-! ## Zero quantity -/

theorem updateLevels_append (levels : Levels) (us vs : List OrderLevel) :
    updateLevels levels (us ++ vs) = updateLevels (updateLevels levels us) vs := by
  simp [updateLevels, List.foldl_append]

theorem not_mem_updateLevels_of_later_zero (p : String) (post : List OrderLevel)
    (hpost : ∀ l ∈ post, l.1 = p → Float64.eq (ParseFloat l.2).1 Float64.zero = true) :
    ∀ levels : Levels, p ∉ levels → p ∉ updateLevels levels post := by
  induction post with
  | nil => intro levels h; exact h
  | cons u us ih =>
    intro levels h
    have hstep : updateLevels levels (u :: us) =
        updateLevels (if Float64.eq (ParseFloat u.2).1 Float64.zero then levels.erase u.1
          else levels.insert u.1 (ParseFloat u.2).1) us := rfl
    rw [hstep]
    apply ih (fun l hl => hpost l (List.mem_cons_of_mem _ hl))
    by_cases hz : Float64.eq (ParseFloat u.2).1 Float64.zero = true
    · rw [if_pos hz, AList.mem_erase]
      exact fun hc => h hc.2
    · rw [if_neg hz, AList.mem_insert]
      rintro (hc | hc)
      · exact hz (hpost u (List.mem_cons_self _ _) hc.symm)
      · exact h hc

theorem parseFloat_zero_text : Float64.eq (ParseFloat "0").1 Float64.zero = true := by decide

theorem not_mem_updateLevels (levels : Levels) (p : String) (pre post : List OrderLevel)
    (hpost : ∀ l ∈ post, l.1 = p → Float64.eq (ParseFloat l.2).1 Float64.zero = true) :
    p ∉ updateLevels levels (pre ++ (p, "0") :: post) := by
  rw [updateLevels_append]
  have hstep : updateLevels (updateLevels levels pre) ((p, "0") :: post) =
      updateLevels ((updateLevels levels pre).erase p) post := by
    show updateLevels (if Float64.eq (ParseFloat "0").1 Float64.zero
      then (updateLevels levels pre).erase p
      else (updateLevels levels pre).insert p (ParseFloat "0").1) post = _
    rw [if_pos parseFloat_zero_text]
  rw [hstep]
  apply not_mem_updateLevels_of_later_zero p post hpost
  rw [AList.mem_erase]
  exact fun hc => hc.1 rfl

/-- C7 as stated fails.  First, the bid changes `[["50000.00","0"],["50000.00","2"]]`
contain the pair `["50000.00","0"]`, yet after `applyUpdate` the price `50000.00`
is a key of bids again and the view lists it.  Second, after the lone change
`["50000.00","0"]` on a book that also holds the key `50000.0`, the view still
lists a bid at the numeric price `50000` (bits `0x40e86a0000000000`). -/
theorem zero_quantity_counterexample :
    accepted (storeOf 10 [("50000.00", "1.5")] [])
      (mkUpdate "BTCUSDT" 11 11 [("50000.00", "0"), ("50000.00", "2")] []) = true ∧
    (getBook (applyUpdate (storeOf 10 [("50000.00", "1.5")] [])
        (mkUpdate "BTCUSDT" 11 11 [("50000.00", "0"), ("50000.00", "2")] [])).1 "BTCUSDT").map
      (fun b => (b.Bids.entries, viewBids b)) =
      some ([⟨"50000.00", Float64.ofBits 0x4000000000000000⟩],
        [⟨Float64.ofBits 0x40e86a0000000000, Float64.ofBits 0x4000000000000000⟩]) ∧
    accepted (storeOf 10 [("50000.00", "1.5"), ("50000.0", "2")] [])
      (mkUpdate "BTCUSDT" 11 11 [("50000.00", "0")] []) = true ∧
    (ParseFloat "50000.00").1 = Float64.ofBits 0x40e86a0000000000 ∧
    (getBook (applyUpdate (storeOf 10 [("50000.00", "1.5"), ("50000.0", "2")] [])
        (mkUpdate "BTCUSDT" 11 11 [("50000.00", "0")] [])).1 "BTCUSDT").map
      (fun b => (b.Bids.entries, viewBids b)) =
      some ([⟨"50000.0", Float64.ofBits 0x4000000000000000⟩],
        [⟨Float64.ofBits 0x40e86a0000000000, Float64.ofBits 0x4000000000000000⟩]) := by
  refine ⟨by decide, by decide, by decide, by decide, by decide⟩

/-- C7 (amended): for every accepted update whose bid changes contain a pair
`[p, "0"]` after which no pair of the bid list sets `p` to a quantity other than
zero, the price `p` is not a key of bids after `applyUpdate`; and in whatever
order `range` visits the bids afterwards, every bid that the view lists is the
level of a key other than `p`. -/
theorem zero_quantity_removes_level (obm : OrderBookManager) (update : DepthUpdate)
    (book : OrderBook) (p : String) (pre post : List OrderLevel)
    (hbook : getBook obm update.Symbol = some book)
    (hfinal : book.LastUpdateID.val < update.FinalUpdateID.val)
    (hfirst : update.FirstUpdateID.val ≤ book.LastUpdateID.val + 1)
    (hbids : update.Bids = pre ++ (p, "0") :: post)
    (hpost : ∀ l ∈ post, l.1 = p → Float64.eq (ParseFloat l.2).1 Float64.zero = true) :
    ∃ after, getBook (applyUpdate obm update).1 update.Symbol = some after ∧
      p ∉ after.Bids ∧
      ∀ visited : OrderBook, visited.Bids.entries.Perm after.Bids.entries →
        ∀ v ∈ viewBids visited,
          ∃ price, price ≠ p ∧ visited.Bids.lookup price = some v.Amount ∧
            v.Price = (ParseFloat price).1 := by
  rw [applyUpdate_of_accept obm update book hbook hfinal hfirst]
  refine ⟨_, getBook_replace_self obm update.Symbol book _ hbook, ?_, ?_⟩
  · show p ∉ updateLevels book.Bids update.Bids
    rw [hbids]
    exact not_mem_updateLevels book.Bids p pre post hpost
  · intro visited hperm v hv
    obtain ⟨price, hl, hprice⟩ := mem_viewBids visited v hv
    refine ⟨price, ?_, hl, hprice⟩
    rintro rfl
    have hmem : price ∈ visited.Bids := by
      rw [← AList.lookup_isSome, hl]; rfl
    have hnot : price ∉ updateLevels book.Bids update.Bids := by
      rw [hbids]
      exact not_mem_updateLevels book.Bids price pre post hpost
    exact hnot ((AList.mem_of_perm hperm).mp hmem)

/-- C7 (amended) at the book holding bids `50000.00` and `49999.5` and the
update `11..11` with the bid change `["50000.00","0"]`: the book and the view are
left with the level `49999.5` (bits `0x40e869f000000000`) alone. -/
theorem zero_quantity_removes_level_witness :
    (∃ after,
      getBook (applyUpdate (storeOf 10 [("50000.00", "1.5"), ("49999.5", "2")] [])
        (mkUpdate "BTCUSDT" 11 11 [("50000.00", "0")] [])).1 "BTCUSDT" = some after ∧
      "50000.00" ∉ after.Bids ∧
      ∀ visited : OrderBook, visited.Bids.entries.Perm after.Bids.entries →
        ∀ v ∈ viewBids visited,
          ∃ price, price ≠ "50000.00" ∧ visited.Bids.lookup price = some v.Amount ∧
            v.Price = (ParseFloat price).1) ∧
    (getBook (applyUpdate (storeOf 10 [("50000.00", "1.5"), ("49999.5", "2")] [])
        (mkUpdate "BTCUSDT" 11 11 [("50000.00", "0")] [])).1 "BTCUSDT").map
      (fun b => (b.Bids.entries, viewBids b)) =
      some ([⟨"49999.5", Float64.ofBits 0x4000000000000000⟩],
        [⟨Float64.ofBits 0x40e869f000000000, Float64.ofBits 0x4000000000000000⟩]) :=
  ⟨zero_quantity_removes_level (storeOf 10 [("50000.00", "1.5"), ("49999.5", "2")] [])
      (mkUpdate "BTCUSDT" 11 11 [("50000.00", "0")] [])
      (bookOf 10 [("50000.00", "1.5"), ("49999.5", "2")] []) "50000.00" [] []
      (getBook_storeOf 10 _ _) (by decide) (by decide) rfl (by decide),
    by decide⟩

/-! ## The view -/

theorem insertionStep_sorted {α : Type} (less : α → α → Bool) (k : α → Int) (good : α → Prop)
    (hless : ∀ a b, good a → good b → (less a b = true ↔ k a < k b))
    (x : α) (hx : good x) :
    ∀ l : List α, (∀ y ∈ l, good y) → l.Pairwise (fun a b => k b ≤ k a) →
      (insertionStep less x l).Pairwise (fun a b => k b ≤ k a) := by
  intro l
  induction l with
  | nil => intro _ _; exact List.pairwise_singleton _ _
  | cons y left ih =>
    intro hgood hs
    have hy : good y := hgood y (List.mem_cons_self _ _)
    have hleft : ∀ z ∈ left, good z := fun z hz => hgood z (List.mem_cons_of_mem _ hz)
    rw [List.pairwise_cons] at hs
    unfold insertionStep
    by_cases h : less x y = true
    · rw [if_pos h, List.pairwise_cons]
      refine ⟨?_, ih hleft hs.2⟩
      intro z hz
      have hz' := (insertionStep_perm less x left).subset hz
      rcases List.mem_cons.mp hz' with rfl | hz''
      · exact le_of_lt ((hless _ _ hx hy).mp h)
      · exact hs.1 z hz''
    · rw [if_neg h, List.pairwise_cons]
      have hyx : k y ≤ k x := by
        have := (hless x y hx hy).not.mp h
        omega
      refine ⟨?_, List.pairwise_cons.mpr hs⟩
      intro z hz
      rcases List.mem_cons.mp hz with rfl | hz'
      · exact hyx
      · exact le_trans (hs.1 z hz') hyx

theorem foldl_insertionStep_sorted {α : Type} (less : α → α → Bool) (k : α → Int)
    (good : α → Prop)
    (hless : ∀ a b, good a → good b → (less a b = true ↔ k a < k b)) :
    ∀ (data done : List α), (∀ y ∈ data, good y) → (∀ y ∈ done, good y) →
      done.Pairwise (fun a b => k b ≤ k a) →
      (data.foldl (fun done x => insertionStep less x done) done).Pairwise
        (fun a b => k b ≤ k a) := by
  intro data
  induction data with
  | nil => intro done _ _ hs; exact hs
  | cons x xs ih =>
    intro done hdata hdone hs
    rw [List.foldl_cons]
    have hx : good x := hdata x (List.mem_cons_self _ _)
    apply ih _ (fun y hy => hdata y (List.mem_cons_of_mem _ hy))
    · intro y hy
      rcases List.mem_cons.mp ((insertionStep_perm less x done).subset hy) with rfl | h
      · exact hx
      · exact hdone y h
    · exact insertionStep_sorted less k good hless x hx done hdone hs

/-- When `less` compares a key on the elements of the slice, the sort returns
them in ascending order of the key. -/
theorem sortSlice_sorted {α : Type} (less : α → α → Bool) (k : α → Int) (good : α → Prop)
    (hless : ∀ a b, good a → good b → (less a b = true ↔ k a < k b))
    (data : List α) (hdata : ∀ y ∈ data, good y) :
    (sortSlice less data).Pairwise (fun a b => k a ≤ k b) := by
  unfold sortSlice insertionSort
  rw [List.pairwise_reverse]
  exact foldl_insertionStep_sorted less k good hless data [] hdata
    (fun y hy => absurd hy (List.not_mem_nil _)) List.Pairwise.nil

theorem rangeLevels_good (levels : Levels)
    (h : ∀ price ∈ levels.keys, (ParseFloat price).1.isNaN = false) :
    ∀ v ∈ rangeLevels levels, v.Price.isNaN = false := by
  intro v hv
  obtain ⟨price, hl, hp⟩ := mem_rangeLevels levels v hv
  rw [hp]
  apply h price
  rw [← AList.mem_keys, ← AList.lookup_isSome, hl]; rfl

theorem length_rangeLevels (levels : Levels) :
    (rangeLevels levels).length = levels.entries.length := by
  simp [rangeLevels]

theorem gt_iff_key (a b : SortedLevel) (ha : a.Price.isNaN = false) (hb : b.Price.isNaN = false) :
    Float64.gt a.Price b.Price = true ↔ -a.Price.key < -b.Price.key := by
  simp [Float64.gt, Float64.lt, ha, hb]

theorem lt_iff_key (a b : SortedLevel) (ha : a.Price.isNaN = false) (hb : b.Price.isNaN = false) :
    Float64.lt a.Price b.Price = true ↔ a.Price.key < b.Price.key := by
  simp [Float64.lt, ha, hb]

/-- The first twenty of a slice sorted by a key: the length, the order of the
listed elements, and the elements left out. -/
theorem take20_sorted (less : SortedLevel → SortedLevel → Bool) (k : SortedLevel → Int)
    (hless : ∀ a b, a.Price.isNaN = false → b.Price.isNaN = false →
      (less a b = true ↔ k a < k b))
    (data : List SortedLevel) (hdata : ∀ y ∈ data, y.Price.isNaN = false) :
    (truncate20 (sortSlice less data)).length = min data.length 20 ∧
    (truncate20 (sortSlice less data)).Pairwise (fun a b => k a ≤ k b) ∧
    (∀ v ∈ truncate20 (sortSlice less data), v.Price.isNaN = false) ∧
    ∃ rest, (truncate20 (sortSlice less data) ++ rest).Perm data ∧
      (∀ x ∈ rest, x.Price.isNaN = false) ∧
      ∀ v ∈ truncate20 (sortSlice less data), ∀ x ∈ rest, k v ≤ k x := by
  have hperm := sortSlice_perm less data
  have hsorted := sortSlice_sorted less k (fun v => v.Price.isNaN = false) hless data hdata
  rw [truncate20_eq_take]
  refine ⟨?_, ?_, ?_, (sortSlice less data).drop 20, ?_, ?_, ?_⟩
  · rw [List.length_take, hperm.length_eq, Nat.min_comm]
  · exact hsorted.sublist (List.take_sublist _ _)
  · intro v hv
    exact hdata v (hperm.subset (List.mem_of_mem_take hv))
  · rw [List.take_append_drop]; exact hperm
  · intro x hx
    exact hdata x (hperm.subset (List.mem_of_mem_drop hx))
  · have h := hsorted
    rw [← List.take_append_drop 20 (sortSlice less data), List.pairwise_append] at h
    exact h.2.2

/-- C8 as stated fails: when `range` visits the bids `1`, `NaN`, `2` in this
order, the sort leaves them in this order (no element is `>` NaN and NaN is `>`
no element), so the view lists the price `1` before the price `2`. -/
theorem view_order_counterexample :
    getBook (storeOf 10 [("2", "1"), ("NaN", "1"), ("1", "1")] []) "BTCUSDT" =
      some (bookOf 10 [("2", "1"), ("NaN", "1"), ("1", "1")] []) ∧
    (bookOf 10 [("2", "1"), ("NaN", "1"), ("1", "1")] []).Bids.keys = ["1", "NaN", "2"] ∧
    (viewBids (bookOf 10 [("2", "1"), ("NaN", "1"), ("1", "1")] [])).map (fun v => v.Price) =
      [Float64.ofBits 0x3ff0000000000000, Float64.nan, Float64.ofBits 0x4000000000000000] ∧
    Float64.ge (Float64.ofBits 0x3ff0000000000000) (Float64.ofBits 0x4000000000000000) = false ∧
    Float64.gt (Float64.ofBits 0x4000000000000000) (Float64.ofBits 0x3ff0000000000000) = true := by
  refine ⟨getBook_storeOf 10 _ _, by decide, by decide, by decide, by decide⟩

/-- C8 (amended): for every book none of whose price keys parses to NaN, with
`n` bid levels and `m` ask levels, the view has exactly `min(n, 20)` bids in
descending order of the parsed price and exactly `min(m, 20)` asks in ascending
order; every entry of the view is the parsed price and the quantity of a level
of the book; and the levels left out are, on the bid side, not above and, on the
ask side, not below any listed level. -/
theorem view_sorted_and_capped (book : OrderBook)
    (hbids : ∀ price ∈ book.Bids.keys, (ParseFloat price).1.isNaN = false)
    (hasks : ∀ price ∈ book.Asks.keys, (ParseFloat price).1.isNaN = false) :
    ((viewBids book).length = min book.Bids.entries.length 20 ∧
      (viewBids book).Pairwise (fun a b => Float64.ge a.Price b.Price = true) ∧
      (∀ v ∈ viewBids book, ∃ price,
        book.Bids.lookup price = some v.Amount ∧ v.Price = (ParseFloat price).1) ∧
      ∃ rest, (viewBids book ++ rest).Perm (rangeLevels book.Bids) ∧
        ∀ v ∈ viewBids book, ∀ x ∈ rest, Float64.ge v.Price x.Price = true) ∧
    ((viewAsks book).length = min book.Asks.entries.length 20 ∧
      (viewAsks book).Pairwise (fun a b => Float64.le a.Price b.Price = true) ∧
      (∀ v ∈ viewAsks book, ∃ price,
        book.Asks.lookup price = some v.Amount ∧ v.Price = (ParseFloat price).1) ∧
      ∃ rest, (viewAsks book ++ rest).Perm (rangeLevels book.Asks) ∧
        ∀ v ∈ viewAsks book, ∀ x ∈ rest, Float64.le v.Price x.Price = true) := by
  constructor
  · obtain ⟨hlen, hsorted, hgood, rest, hperm, hrest, hout⟩ :=
      take20_sorted (fun a b => Float64.gt a.Price b.Price) (fun v => -v.Price.key)
        gt_iff_key (rangeLevels book.Bids) (rangeLevels_good book.Bids hbids)
    refine ⟨?_, ?_, fun v hv => mem_viewBids book v hv, rest, hperm, ?_⟩
    · rw [← length_rangeLevels]; exact hlen
    · have hsorted' : (viewBids book).Pairwise (fun a b => -a.Price.key ≤ -b.Price.key) :=
        hsorted
      refine hsorted'.imp_of_mem ?_
      intro a b ha hb hab
      have hab' : b.Price.key ≤ a.Price.key := by omega
      simp [Float64.ge, hgood a ha, hgood b hb, hab']
    · intro v hv x hx
      have hvx : -v.Price.key ≤ -x.Price.key := hout v hv x hx
      have hvx' : x.Price.key ≤ v.Price.key := by omega
      simp [Float64.ge, hgood v hv, hrest x hx, hvx']
  · obtain ⟨hlen, hsorted, hgood, rest, hperm, hrest, hout⟩ :=
      take20_sorted (fun a b => Float64.lt a.Price b.Price) (fun v => v.Price.key)
        lt_iff_key (rangeLevels book.Asks) (rangeLevels_good book.Asks hasks)
    refine ⟨?_, ?_, fun v hv => mem_viewAsks book v hv, rest, hperm, ?_⟩
    · rw [← length_rangeLevels]; exact hlen
    · have hsorted' : (viewAsks book).Pairwise (fun a b => a.Price.key ≤ b.Price.key) :=
        hsorted
      refine hsorted'.imp_of_mem ?_
      intro a b ha hb hab
      simp [Float64.le, Float64.ge, hgood a ha, hgood b hb, hab]
    · intro v hv x hx
      have hvx : v.Price.key ≤ x.Price.key := hout v hv x hx
      simp [Float64.le, Float64.ge, hgood v hv, hrest x hx, hvx]

set_option maxRecDepth 100000 in
/-- C8 (amended) at the book installed from thirty bid levels and five ask
levels: the view lists the twenty highest bids, highest first, and the five
asks, lowest first. -/
theorem view_sorted_and_capped_witness :
    (((viewBids (bookOf 10 thirtyBids fiveAsks)).length =
        min (bookOf 10 thirtyBids fiveAsks).Bids.entries.length 20 ∧
      (viewBids (bookOf 10 thirtyBids fiveAsks)).Pairwise
        (fun a b => Float64.ge a.Price b.Price = true) ∧
      (∀ v ∈ viewBids (bookOf 10 thirtyBids fiveAsks), ∃ price,
        (bookOf 10 thirtyBids fiveAsks).Bids.lookup price = some v.Amount ∧
          v.Price = (ParseFloat price).1) ∧
      ∃ rest, (viewBids (bookOf 10 thirtyBids fiveAsks) ++ rest).Perm
          (rangeLevels (bookOf 10 thirtyBids fiveAsks).Bids) ∧
        ∀ v ∈ viewBids (bookOf 10 thirtyBids fiveAsks), ∀ x ∈ rest,
          Float64.ge v.Price x.Price = true) ∧
    ((viewAsks (bookOf 10 thirtyBids fiveAsks)).length =
        min (bookOf 10 thirtyBids fiveAsks).Asks.entries.length 20 ∧
      (viewAsks (bookOf 10 thirtyBids fiveAsks)).Pairwise
        (fun a b => Float64.le a.Price b.Price = true) ∧
      (∀ v ∈ viewAsks (bookOf 10 thirtyBids fiveAsks), ∃ price,
        (bookOf 10 thirtyBids fiveAsks).Asks.lookup price = some v.Amount ∧
          v.Price = (ParseFloat price).1) ∧
      ∃ rest, (viewAsks (bookOf 10 thirtyBids fiveAsks) ++ rest).Perm
          (rangeLevels (bookOf 10 thirtyBids fiveAsks).Asks) ∧
        ∀ v ∈ viewAsks (bookOf 10 thirtyBids fiveAsks), ∀ x ∈ rest,
          Float64.le v.Price x.Price = true)) ∧
    (bookOf 10 thirtyBids fiveAsks).Bids.entries.length = 30 ∧
    (viewBids (bookOf 10 thirtyBids fiveAsks)).map (fun v => v.Price) =
      (["129.73", "128.36", "127.99", "126.62", "125.25", "124.88", "123.51",
         "122.14", "121.77", "120.40", "119.03", "118.66", "117.29", "116.92",
         "115.55", "114.18", "113.81", "112.44", "111.07", "110.70"]).map
        (fun s => (ParseFloat s).1) ∧
    (viewAsks (bookOf 10 thirtyBids fiveAsks)).map (fun v => v.Price) =
      (["130.25", "130.5", "131.5", "132.75", "133"]).map (fun s => (ParseFloat s).1) :=
  ⟨view_sorted_and_capped (bookOf 10 thirtyBids fiveAsks) (by decide) (by decide),
    by decide, by decide, by decide⟩

/-! ## The query handler -/

theorem toUpper_eq_empty (upper : Char → Char) (s : String) :
    ToUpper upper s = "" ↔ s = "" := by
  unfold ToUpper
  constructor
  · intro h
    have h1 : (String.mk (List.map upper s.toList)).data = ("" : String).data := by rw [h]
    have h2 : List.map upper s.toList = [] := h1
    have h3 : s.toList = [] := List.map_eq_nil_iff.mp h2
    cases s with
    | mk data =>
      have : data = [] := h3
      subst this
      rfl
  · intro h
    subst h
    rfl

theorem encodeResponse_of_finite (bids asks : List SortedLevel) (lastUpdateId : Int64)
    (h : ∀ l ∈ bids ++ asks, jsonFloatOK l.Price = true ∧ jsonFloatOK l.Amount = true) :
    encodeResponse bids asks lastUpdateId = Body.json bids asks lastUpdateId := by
  unfold encodeResponse
  rw [if_pos]
  rw [List.all_eq_true]
  intro l hl
  simp [h l hl]

theorem encodeResponse_of_not_finite (bids asks : List SortedLevel) (lastUpdateId : Int64)
    (h : ¬ ∀ l ∈ bids ++ asks, jsonFloatOK l.Price = true ∧ jsonFloatOK l.Amount = true) :
    encodeResponse bids asks lastUpdateId = Body.empty := by
  unfold encodeResponse
  rw [if_neg]
  rw [List.all_eq_true]
  intro hall
  apply h
  intro l hl
  simpa using hall l hl

/-- C9 as stated fails: for the book installed from the bid level
`["100.5","Inf"]` the handler answers `200` with an empty body, not with the
view, because the JSON encoder refuses the infinite quantity. -/
theorem handler_view_counterexample :
    (getBook (storeOf 10 [("100.5", "Inf")] []) "BTCUSDT").map
        (fun b => (viewBids b, viewAsks b)) =
      some ([⟨Float64.ofBits 0x4059200000000000, Float64.inf false⟩], []) ∧
    (getOrderBookHandler Char.toUpper (storeOf 10 [("100.5", "Inf")] [])
      { query := [("symbol", "btcusdt")] }).1 = { status := 200, body := Body.empty } := by
  refine ⟨by decide, by decide⟩

/-- C9 (amended): the handler answers `400` exactly when the `symbol` parameter
is missing or empty; otherwise it answers `404`, with the not-found text,
exactly when the upper-cased symbol has no book; otherwise it answers `200`, and
the body is the view with the `lastUpdateId` of the book when every price and
quantity of the view is finite, and is empty when one is not.  The store is left
as it is in every case. -/
theorem handler_answers (upper : Char → Char) (obm : OrderBookManager) (r : Request) :
    ((getOrderBookHandler upper obm r).1.status = 400 ↔ r.queryGet "symbol" = "") ∧
    (r.queryGet "symbol" ≠ "" →
      ((getOrderBookHandler upper obm r).1.status = 404 ↔
        getBook obm (ToUpper upper (r.queryGet "symbol")) = none)) ∧
    (r.queryGet "symbol" ≠ "" →
      getBook obm (ToUpper upper (r.queryGet "symbol")) = none →
      (getOrderBookHandler upper obm r).1.body = Body.text "404 page not found") ∧
    (∀ book, r.queryGet "symbol" ≠ "" →
      getBook obm (ToUpper upper (r.queryGet "symbol")) = some book →
      (getOrderBookHandler upper obm r).1.status = 200 ∧
      ((∀ l ∈ viewBids book ++ viewAsks book,
          jsonFloatOK l.Price = true ∧ jsonFloatOK l.Amount = true) →
        (getOrderBookHandler upper obm r).1.body =
          Body.json (viewBids book) (viewAsks book) book.LastUpdateID) ∧
      ((¬ ∀ l ∈ viewBids book ++ viewAsks book,
          jsonFloatOK l.Price = true ∧ jsonFloatOK l.Amount = true) →
        (getOrderBookHandler upper obm r).1.body = Body.empty)) ∧
    (getOrderBookHandler upper obm r).2 = obm := by
  by_cases hs : r.queryGet "symbol" = ""
  · have hu : ToUpper upper (r.queryGet "symbol") = "" := (toUpper_eq_empty upper _).mpr hs
    have hr : getOrderBookHandler upper obm r =
        ({ status := 400, body := Body.text "Missing symbol parameter" }, obm) := by
      unfold getOrderBookHandler
      simp only [hu, if_true]
    rw [hr]
    exact ⟨⟨fun _ => hs, fun _ => rfl⟩, fun h => absurd hs h, fun h => absurd hs h,
      fun _ h => absurd hs h, rfl⟩
  · have hu : ¬ ToUpper upper (r.queryGet "symbol") = "" :=
      fun h => hs ((toUpper_eq_empty upper _).mp h)
    cases hb : getBook obm (ToUpper upper (r.queryGet "symbol")) with
    | none =>
      have hr : getOrderBookHandler upper obm r =
          ({ status := 404, body := Body.text "404 page not found" }, obm) := by
        unfold getOrderBookHandler
        simp only [hu, if_false, hb]
      rw [hr]
      refine ⟨⟨fun h => ?_, fun h => absurd h hs⟩, fun _ => ⟨fun _ => rfl, fun _ => rfl⟩,
        fun _ _ => rfl, fun book _ h => ?_, rfl⟩
      · exact absurd (show (404 : Nat) = 400 from h) (by decide)
      · cases h
    | some book =>
      have hr : getOrderBookHandler upper obm r =
          ({ status := 200,
             body := encodeResponse (viewBids book) (viewAsks book) book.LastUpdateID },
            obm) := by
        unfold getOrderBookHandler
        simp only [hu, if_false, hb]
      rw [hr]
      refine ⟨⟨fun h => ?_, fun h => absurd h hs⟩, fun _ => ⟨fun h => ?_, fun h => ?_⟩,
        fun _ h => ?_, fun book' _ h => ?_, rfl⟩
      · exact absurd (show (200 : Nat) = 400 from h) (by decide)
      · exact absurd (show (200 : Nat) = 404 from h) (by decide)
      · cases h
      · cases h
      · cases h
        exact ⟨rfl, encodeResponse_of_finite _ _ _, encodeResponse_of_not_finite _ _ _⟩

/-- C9 (amended) at the store with the book of `BTCUSDT` installed from the bid
level `["100.5","2.0"]`: `symbol=btcusdt` is answered `200` with the view and
`lastUpdateId = 10`, a request without `symbol` is answered `400`, and
`symbol=ETHUSDT` is answered `404`. -/
theorem handler_answers_witness :
    (getOrderBookHandler Char.toUpper (storeOf 10 [("100.5", "2.0")] [])
        { query := [("symbol", "btcusdt")] }).2 = storeOf 10 [("100.5", "2.0")] [] ∧
    (getOrderBookHandler Char.toUpper (storeOf 10 [("100.5", "2.0")] [])
        { query := [("symbol", "btcusdt")] }).1 =
      { status := 200,
        body := Body.json [⟨Float64.ofBits 0x4059200000000000, Float64.ofBits 0x4000000000000000⟩]
          [] (Int64.ofInt 10) } ∧
    (getOrderBookHandler Char.toUpper (storeOf 10 [("100.5", "2.0")] [])
        { query := [("limit", "5")] }).1 =
      { status := 400, body := Body.text "Missing symbol parameter" } ∧
    (getOrderBookHandler Char.toUpper (storeOf 10 [("100.5", "2.0")] [])
        { query := [("symbol", "ETHUSDT")] }).1 =
      { status := 404, body := Body.text "404 page not found" } :=
  ⟨(handler_answers Char.toUpper (storeOf 10 [("100.5", "2.0")] [])
      { query := [("symbol", "btcusdt")] }).2.2.2.2,
    by decide, by decide, by decide⟩

/-! ## The snapshot install -/

theorem lastWrite_cons (l : OrderLevel) (ls : List OrderLevel) (price : String) :
    lastWrite (l :: ls) price =
      (lastWrite ls price).or (if l.1 = price then some (ParseFloat l.2).1 else none) := by
  unfold lastWrite
  rw [List.reverse_cons, List.find?_append]
  cases h : List.find? (fun l => decide (l.1 = price)) ls.reverse with
  | some x => simp
  | none =>
    by_cases hp : l.1 = price
    · simp [hp]
    · simp [hp]

theorem lookup_foldl_insert (levels : List OrderLevel) (price : String) :
    ∀ m : Levels,
      (levels.foldl (fun m l => m.insert l.1 (ParseFloat l.2).1) m).lookup price =
        (lastWrite levels price).or (m.lookup price) := by
  induction levels with
  | nil => intro m; simp [lastWrite]
  | cons l ls ih =>
    intro m
    rw [List.foldl_cons, ih, lastWrite_cons]
    cases hl : lastWrite ls price with
    | some q => simp
    | none =>
      by_cases hp : price = l.1
      · subst hp; simp [AList.lookup_insert]
      · have hp' : ¬ l.1 = price := fun h => hp h.symm
        simp [AList.lookup_insert_ne hp, hp']

/-- The map that the snapshot loops build holds the last write of every price. -/
theorem lookup_snapshotLevels (levels : List OrderLevel) (price : String) :
    (snapshotLevels levels).lookup price = lastWrite levels price := by
  unfold snapshotLevels
  rw [lookup_foldl_insert]
  simp

theorem lastWrite_isSome (levels : List OrderLevel) (price : String) :
    (lastWrite levels price).isSome = true ↔ ∃ l ∈ levels, l.1 = price := by
  unfold lastWrite
  rw [Option.isSome_map', List.find?_isSome]
  constructor
  · rintro ⟨l, hl, hp⟩
    exact ⟨l, List.mem_reverse.mp hl, by simpa using hp⟩
  · rintro ⟨l, hl, hp⟩
    exact ⟨l, List.mem_reverse.mpr hl, by simpa using hp⟩

theorem mem_snapshotLevels (levels : List OrderLevel) (price : String) :
    price ∈ snapshotLevels levels ↔ ∃ l ∈ levels, l.1 = price := by
  rw [← AList.lookup_isSome, lookup_snapshotLevels, lastWrite_isSome]

/-- C11: installing a decoded snapshot for a symbol replaces the book of the
symbol wholesale, whatever the store held before: each side of the new book maps
exactly the prices of the snapshot's list, each to the parsed quantity of its
last occurrence in the list; no other price is a key, so no level of a previous
book survives unless the snapshot lists it; `lastUpdateId` is the snapshot's;
and the books of all other symbols are unchanged. -/
theorem fetchSnapshot_replaces_book (obm : OrderBookManager) (symbol : String)
    (snapshot : OrderBookSnapshot) :
    ∃ book, getBook (fetchSnapshot obm symbol (some snapshot)) symbol = some book ∧
      (∀ price, book.Bids.lookup price = lastWrite snapshot.Bids price) ∧
      (∀ price, book.Asks.lookup price = lastWrite snapshot.Asks price) ∧
      (∀ price, price ∈ book.Bids ↔ ∃ l ∈ snapshot.Bids, l.1 = price) ∧
      (∀ price, price ∈ book.Asks ↔ ∃ l ∈ snapshot.Asks, l.1 = price) ∧
      book.LastUpdateID = snapshot.LastUpdateID ∧
      ∀ other, other ≠ symbol →
        getBook (fetchSnapshot obm symbol (some snapshot)) other = getBook obm other := by
  refine ⟨_, AList.lookup_insert _, fun price => lookup_snapshotLevels _ price,
    fun price => lookup_snapshotLevels _ price, fun price => mem_snapshotLevels _ price,
    fun price => mem_snapshotLevels _ price, rfl, ?_⟩
  intro other hne
  exact AList.lookup_insert_ne hne

/-- C11 at a store that holds books for `BTCUSDT` (bid `100.5`) and `ETHUSDT`:
the install of a snapshot for `BTCUSDT` whose bids name `101` twice leaves the
single bid `101` with the later quantity `2`, drops the bid `100.5`, sets
`lastUpdateId = 20`, and keeps the book of `ETHUSDT`. -/
theorem fetchSnapshot_replaces_book_example :
    ((getBook
        (fetchSnapshot
          (fetchSnapshot (storeOf 10 [("100.5", "2.0")] []) "ETHUSDT"
            (some { LastUpdateID := Int64.ofInt 7, Bids := [("3000", "1")], Asks := [] }))
          "BTCUSDT"
          (some { LastUpdateID := Int64.ofInt 20, Bids := [("101", "1"), ("101", "2")],
                  Asks := [("102", "0.5")] })) "BTCUSDT").map
      (fun b => (b.Bids.entries, b.Asks.entries, b.LastUpdateID.val)) =
      some ([⟨"101", Float64.ofBits 0x4000000000000000⟩],
        [⟨"102", Float64.ofBits 0x3fe0000000000000⟩], 20)) ∧
    ((getBook
        (fetchSnapshot
          (fetchSnapshot (storeOf 10 [("100.5", "2.0")] []) "ETHUSDT"
            (some { LastUpdateID := Int64.ofInt 7, Bids := [("3000", "1")], Asks := [] }))
          "BTCUSDT"
          (some { LastUpdateID := Int64.ofInt 20, Bids := [("101", "1"), ("101", "2")],
                  Asks := [("102", "0.5")] })) "ETHUSDT").map
      (fun b => (b.Bids.entries, b.Asks.entries, b.LastUpdateID.val)) =
      some ([⟨"3000", Float64.ofBits 0x3ff0000000000000⟩], [], 7)) := by
  refine ⟨by decide, by decide⟩

/-! ## Quantity texts that are not numbers -/

theorem not_errSyntax_of_range_or_none (c : Prop) [Decidable c] (a b : Float64) :
    (if c then (a, some NumError.ErrRange) else (b, (none : Option NumError))).2 ≠
      some NumError.ErrSyntax := by
  split <;> simp

/-- A text for which `strconv.ParseFloat` returns `ErrSyntax` parses to `+0`. -/
theorem parseFloat_of_notANumber (s : String) (h : notANumber s = true) :
    (ParseFloat s).1 = Float64.zero := by
  unfold notANumber at h
  rw [decide_eq_true_eq] at h
  unfold ParseFloat at h ⊢
  cases hsp : special s.toList with
  | some p =>
    obtain ⟨f, n⟩ := p
    simp only [hsp] at h ⊢
    by_cases hn : n = s.toList.length
    · rw [if_pos hn] at h; cases h
    · rw [if_neg hn]
  | none =>
    simp only [hsp] at h ⊢
    cases hr : readFloat s.toList with
    | none => rfl
    | some r =>
      simp only [hr] at h ⊢
      by_cases h1 : r.rest ≠ []
      · rw [if_pos h1]
      · rw [if_neg h1] at h
        by_cases h2 : r.mantissa = 0
        · rw [if_pos h2] at h; cases h
        · rw [if_neg h2] at h
          exact absurd h (not_errSyntax_of_range_or_none _ _ _)

theorem zero_eq_zero : Float64.eq Float64.zero Float64.zero = true := by decide

theorem updateLevels_cons (levels : Levels) (u : OrderLevel) (us : List OrderLevel) :
    updateLevels levels (u :: us) =
      updateLevels (if Float64.eq (ParseFloat u.2).1 Float64.zero then levels.erase u.1
        else levels.insert u.1 (ParseFloat u.2).1) us := rfl

/-- One change after the replacement of a quantity text that is not a number
does what the change itself does. -/
theorem updateLevels_zeroInvalid (updates : List OrderLevel) :
    ∀ levels : Levels,
      updateLevels levels (updates.map zeroInvalid) = updateLevels levels updates := by
  induction updates with
  | nil => intro levels; rfl
  | cons u us ih =>
    intro levels
    rw [List.map_cons, updateLevels_cons, updateLevels_cons, ih]
    congr 1
    unfold zeroInvalid
    by_cases h : notANumber u.2 = true
    · rw [if_pos h]
      have h0 := parseFloat_of_notANumber u.2 h
      simp only [h0, zero_eq_zero, parseFloat_zero_text, if_true]
    · rw [if_neg h]

theorem applyUpdate_zeroInvalidQuantities (obm : OrderBookManager) (update : DepthUpdate) :
    applyUpdate obm (zeroInvalidQuantities update) = applyUpdate obm update := by
  unfold applyUpdate zeroInvalidQuantities
  simp only [updateLevels_zeroInvalid]

theorem updateLevels_single_notANumber (levels : Levels) (p q : String)
    (h : notANumber q = true) : updateLevels levels [(p, q)] = levels.erase p := by
  rw [updateLevels_cons]
  show updateLevels (if Float64.eq (ParseFloat q).1 Float64.zero then levels.erase p
    else levels.insert p (ParseFloat q).1) [] = levels.erase p
  rw [parseFloat_of_notANumber q h, if_pos zero_eq_zero]
  rfl

theorem updateLevels_single_zero_text (levels : Levels) (p : String) :
    updateLevels levels [(p, "0")] = levels.erase p := by
  rw [updateLevels_cons]
  show updateLevels (if Float64.eq (ParseFloat "0").1 Float64.zero then levels.erase p
    else levels.insert p (ParseFloat "0").1) [] = levels.erase p
  rw [if_pos parseFloat_zero_text]
  rfl

/-- C12: in an accepted update, a quantity text that is not a syntactically
valid number is treated exactly like the text `"0"`: `applyUpdate` gives the
same store and the same requests as on the update with every such text replaced
by `"0"`; such a text parses to `0` with the error dropped, and a change that
carries it removes its price from the side; the call returns, requests no
snapshot, and leaves the book with `lastUpdateId = finalUpdateId`. -/
theorem invalid_quantity_treated_as_zero (obm : OrderBookManager) (update : DepthUpdate)
    (book : OrderBook)
    (hbook : getBook obm update.Symbol = some book)
    (hfinal : book.LastUpdateID.val < update.FinalUpdateID.val)
    (hfirst : update.FirstUpdateID.val ≤ book.LastUpdateID.val + 1) :
    applyUpdate obm update = applyUpdate obm (zeroInvalidQuantities update) ∧
    (∀ (levels : Levels) (p q : String), notANumber q = true →
      (ParseFloat q).1 = Float64.zero ∧
      updateLevels levels [(p, q)] = updateLevels levels [(p, "0")] ∧
      updateLevels levels [(p, q)] = levels.erase p ∧
      p ∉ updateLevels levels [(p, q)]) ∧
    ∃ after, getBook (applyUpdate obm update).1 update.Symbol = some after ∧
      after.LastUpdateID = update.FinalUpdateID ∧
      (applyUpdate obm update).2 = [] := by
  refine ⟨(applyUpdate_zeroInvalidQuantities obm update).symm, ?_, ?_⟩
  · intro levels p q hq
    refine ⟨parseFloat_of_notANumber q hq, ?_, updateLevels_single_notANumber levels p q hq, ?_⟩
    · rw [updateLevels_single_notANumber levels p q hq, updateLevels_single_zero_text]
    · rw [updateLevels_single_notANumber levels p q hq, AList.mem_erase]
      exact fun hc => hc.1 rfl
  · rw [applyUpdate_of_accept obm update book hbook hfinal hfirst]
    exact ⟨_, getBook_replace_self obm update.Symbol book _ hbook, rfl, rfl⟩

/-- C12 at the book holding the bids `100.5` and `101` and the ask `102`, and the
update `11..11` whose bid changes carry the quantity texts `""` and `"abc"` and
whose ask change carries `"1x"`: none of the three texts is a number, all three
levels are removed, and `lastUpdateId` is `11`. -/
theorem invalid_quantity_treated_as_zero_witness :
    (applyUpdate (storeOf 10 [("100.5", "2.0"), ("101", "1")] [("102", "3")])
        (mkUpdate "BTCUSDT" 11 11 [("100.5", ""), ("101", "abc")] [("102", "1x")]) =
      applyUpdate (storeOf 10 [("100.5", "2.0"), ("101", "1")] [("102", "3")])
        (zeroInvalidQuantities
          (mkUpdate "BTCUSDT" 11 11 [("100.5", ""), ("101", "abc")] [("102", "1x")])) ∧
    (∀ (levels : Levels) (p q : String), notANumber q = true →
      (ParseFloat q).1 = Float64.zero ∧
      updateLevels levels [(p, q)] = updateLevels levels [(p, "0")] ∧
      updateLevels levels [(p, q)] = levels.erase p ∧
      p ∉ updateLevels levels [(p, q)]) ∧
    ∃ after,
      getBook (applyUpdate (storeOf 10 [("100.5", "2.0"), ("101", "1")] [("102", "3")])
        (mkUpdate "BTCUSDT" 11 11 [("100.5", ""), ("101", "abc")] [("102", "1x")])).1
        "BTCUSDT" = some after ∧
      after.LastUpdateID = Int64.ofInt 11 ∧
      (applyUpdate (storeOf 10 [("100.5", "2.0"), ("101", "1")] [("102", "3")])
        (mkUpdate "BTCUSDT" 11 11 [("100.5", ""), ("101", "abc")] [("102", "1x")])).2 = []) ∧
    (notANumber "" = true ∧ notANumber "abc" = true ∧ notANumber "1x" = true ∧
      notANumber "0" = false) ∧
    (zeroInvalidQuantities
        (mkUpdate "BTCUSDT" 11 11 [("100.5", ""), ("101", "abc")] [("102", "1x")])).Bids =
      [("100.5", "0"), ("101", "0")] ∧
    (getBook (applyUpdate (storeOf 10 [("100.5", "2.0"), ("101", "1")] [("102", "3")])
        (mkUpdate "BTCUSDT" 11 11 [("100.5", ""), ("101", "abc")] [("102", "1x")])).1
        "BTCUSDT").map (fun b => (b.Bids.entries, b.Asks.entries, b.LastUpdateID.val)) =
      some ([], [], 11) :=
  ⟨invalid_quantity_treated_as_zero (storeOf 10 [("100.5", "2.0"), ("101", "1")] [("102", "3")])
      (mkUpdate "BTCUSDT" 11 11 [("100.5", ""), ("101", "abc")] [("102", "1x")])
      (bookOf 10 [("100.5", "2.0"), ("101", "1")] [("102", "3")])
      (getBook_storeOf 10 _ _) (by decide) (by decide),
    by decide, by decide, by decide⟩

end OrderbookManager
